import Mathlib

/-!
Verification of the WikiData storage layer (src/storage.py) and the
benchmark harness (src/main.py).

The Python code is shallowly embedded: the SQLite database is a record of
four tables (lists of rows), the TinyDB store is a list of raw entity
documents, and each Python method becomes a pure Lean function over those
states.  Raw entity records model Python dicts: an `Option` field is `none`
exactly when the corresponding dict key is absent.
-/

namespace WikiData

/-- An element of an entity record's "aliases" list (keys "value" and
"language"; `dict.get` defaults of `""` are applied at this level since no
code path distinguishes a missing alias key from `""`). -/
structure AliasRec where
  value : String
  language : String
deriving DecidableEq, Repr

/-- The "property" sub-dict of a statement record (keys "property_id" and
"label", with `.get(..., '')` defaults applied). -/
structure PropRec where
  property_id : String
  label : String
deriving DecidableEq, Repr

/-- An element of an entity record's "statements" list.  `property = none`
models a statement dict without the "property" key (such statements are
silently dropped by the SQLite backend); `entity_id = none` models a
statement without the "entity_id" key (a literal, non entity-reference
statement). -/
structure StmtRec where
  property : Option PropRec
  value : String
  entity_id : Option String
deriving DecidableEq, Repr

/-- A raw entity record as passed to `store_entity`.  Every field is an
`Option`: `none` models the absence of the corresponding dict key, which
the Python code distinguishes from an empty value (`entity_data['entity_id']`
raises `KeyError` when absent, TinyDB's `update` merges only present keys,
and the SQLite alias/statement blocks run only when the key is present and
truthy). -/
structure EntityRec where
  entity_id : Option String
  label : Option String
  description : Option String
  type : Option String
  aliases : Option (List AliasRec)
  statements : Option (List StmtRec)
deriving DecidableEq, Repr

/-! ## SQLite backend state (the four tables of create_tables) -/

/-- A row of the `entities` table. -/
structure EntityRow where
  id : String
  label : String
  description : String
  type : String
deriving DecidableEq, Repr

/-- A row of the `aliases` table (the AUTOINCREMENT surrogate key is
represented by list position). -/
structure AliasRow where
  entity_id : String
  value : String
  language : String
deriving DecidableEq, Repr

/-- A row of the `statements` table (the AUTOINCREMENT surrogate key is
represented by list position; `entity_value_id` is nullable). -/
structure StmtRow where
  entity_id : String
  property_id : String
  value : String
  entity_value_id : Option String
deriving DecidableEq, Repr

/-- The SQLite database: the four tables created by `create_tables`.  Rows
are listed in rowid order; the `properties` table is a list of
(id, label) pairs. -/
structure SqliteState where
  entities : List EntityRow
  aliases : List AliasRow
  properties : List (String × String)
  statements : List StmtRow
deriving DecidableEq, Repr

/-- A freshly created database (after `create_tables` on a new file). -/
def SqliteState.empty : SqliteState := ⟨[], [], [], []⟩

/-- `INSERT OR REPLACE INTO entities`: SQLite deletes a conflicting row
with the same primary key and appends the new row (new rowid). -/
def upsertEntity (st : SqliteState) (row : EntityRow) : SqliteState :=
  { st with entities := st.entities.filter (fun e => e.id ≠ row.id) ++ [row] }

/-- `INSERT OR REPLACE INTO properties`: same replace-on-conflict
semantics on the property primary key. -/
def upsertPropList (ps : List (String × String)) (pid plabel : String) :
    List (String × String) :=
  ps.filter (fun p => p.1 ≠ pid) ++ [(pid, plabel)]

/-- Truthiness of `entity_data['aliases']` guarded by key presence
(`'aliases' in entity_data and entity_data['aliases']`). -/
def aliasesTruthy (rec : EntityRec) : Bool :=
  match rec.aliases with
  | some (_ :: _) => true
  | _ => false

/-- Truthiness of `entity_data['statements']` guarded by key presence. -/
def statementsTruthy (rec : EntityRec) : Bool :=
  match rec.statements with
  | some (_ :: _) => true
  | _ => false

/-- `store_entity` raises `KeyError` (at `entity_data['entity_id']` in the
alias-delete or statement-delete step) exactly when the record has no
"entity_id" key but a truthy alias or statement list; the handler then
rolls the transaction back, so the database is unchanged. -/
def storeFails (rec : EntityRec) : Bool :=
  rec.entity_id.isNone && (aliasesTruthy rec || statementsTruthy rec)

/-- Processing of one element of the "statements" list inside
`store_entity`: if the statement has a "property" key, upsert the property
row and insert the statement row; otherwise do nothing. -/
def applyStmt (eid : String) (st : SqliteState) (s : StmtRec) : SqliteState :=
  match s.property with
  | none => st
  | some p =>
    { st with
      properties := upsertPropList st.properties p.property_id p.label,
      statements := st.statements ++ [⟨eid, p.property_id, s.value, s.entity_id⟩] }

/-- The row written by the `INSERT OR REPLACE INTO entities` statement,
with the `.get(..., '')` defaults of the Python code. -/
def entityRowOf (rec : EntityRec) : EntityRow :=
  ⟨rec.entity_id.getD "", rec.label.getD "", rec.description.getD "",
   rec.type.getD ""⟩

/-- The "aliases" block of `store_entity`: when the alias list is present
and non-empty, delete the entity's alias rows and insert the new ones. -/
def aliasPhase (rec : EntityRec) (st : SqliteState) : SqliteState :=
  if aliasesTruthy rec then
    { st with aliases :=
        st.aliases.filter (fun a => a.entity_id ≠ rec.entity_id.getD "")
          ++ (rec.aliases.getD []).map (fun a => ⟨rec.entity_id.getD "", a.value, a.language⟩) }
  else st

/-- The "statements" block of `store_entity`: when the statement list is
present and non-empty, delete the entity's statement rows and process each
statement in order. -/
def stmtPhase (rec : EntityRec) (st : SqliteState) : SqliteState :=
  if statementsTruthy rec then
    (rec.statements.getD []).foldl (applyStmt (rec.entity_id.getD ""))
      { st with statements :=
          st.statements.filter (fun s => s.entity_id ≠ rec.entity_id.getD "") }
  else st

/-- `WikidataSQLiteStorage.store_entity`: insert-or-replace the entity row,
run the aliases block, run the statements block, commit at the end.  On
the `KeyError` described at `storeFails` the exception handler rolls back,
leaving the state unchanged (the error is printed, never propagated). -/
def sqliteStoreEntity (st : SqliteState) (rec : EntityRec) : SqliteState :=
  if storeFails rec then st
  else stmtPhase rec (aliasPhase rec (upsertEntity st (entityRowOf rec)))

/-- `WikidataSQLiteStorage.store_entities` on a list input: ensure the
tables exist, then `store_entity` for each record in order. -/
def sqliteStoreEntities (st : SqliteState) (recs : List EntityRec) : SqliteState :=
  recs.foldl sqliteStoreEntity st

/-! ## SQLite backend reads -/

/-- A statement as returned by `get_entity_by_id` (the surrogate row id is
omitted; `entity_id` is present only when the stored `entity_value_id` is
truthy, i.e. neither NULL nor the empty string). -/
structure StatementOut where
  property_id : String
  property_label : String
  value : String
  entity_id : Option String
deriving DecidableEq, Repr

/-- The entity dict built by `WikidataSQLiteStorage.get_entity_by_id`. -/
structure EntityOut where
  id : String
  label : String
  description : String
  type : String
  aliases : List AliasRec
  statements : List StatementOut
deriving DecidableEq, Repr

/-- Python truthiness of the fetched `entity_value_id` column: the
"entity_id" key is added to the result dict only when the column value is
neither NULL nor `""`. -/
def truthyRef : Option String → Option String
  | some v => if v = "" then none else some v
  | none => none

/-- Lookup of a property row by primary key. -/
def lookupProp (ps : List (String × String)) (pid : String) : Option String :=
  (ps.find? (fun p => p.1 = pid)).map (fun p => p.2)

/-- `WikidataSQLiteStorage.get_entity_by_id`: fetch the entity row (`none`
when absent), then collect its alias rows and its statement rows joined
with the `properties` table (the inner join drops statement rows whose
property id has no property row). -/
def sqliteGetEntityById (st : SqliteState) (entity_id : String) : Option EntityOut :=
  match st.entities.find? (fun e => e.id = entity_id) with
  | none => none
  | some e =>
    some
      { id := e.id
        label := e.label
        description := e.description
        type := e.type
        aliases := (st.aliases.filter (fun a => a.entity_id = entity_id)).map
          (fun a => ⟨a.value, a.language⟩)
        statements := (st.statements.filter (fun s => s.entity_id = entity_id)).filterMap
          (fun s => (lookupProp st.properties s.property_id).map
            (fun plabel => ⟨s.property_id, plabel, s.value, truthyRef s.entity_value_id⟩)) }

/-! ## SQLite backend search -/

/-- ASCII lower-casing, as applied by SQLite's case-insensitive `LIKE`. -/
def lowerChar (c : Char) : Char := c.toLower

/-- SQLite `LIKE` matching of a pattern against a string: `%` matches any
(possibly empty) substring (the rest of the pattern may resume at any
suffix), `_` matches any single character, and other characters match
case-insensitively. -/
def likeMatch : List Char → List Char → Bool
  | [], s => s.isEmpty
  | p :: ps, s =>
    if p = '%' then (s.tails).any (fun t => likeMatch ps t)
    else
      match s with
      | [] => false
      | c :: s' =>
        if p = '_' then likeMatch ps s'
        else (lowerChar p = lowerChar c) && likeMatch ps s'

/-- The `col LIKE ?` test with bound parameter `f"%{query}%"`. -/
def sqlLikeQ (q s : String) : Bool :=
  likeMatch ('%' :: (q.toList ++ ['%'])) s.toList

/-- The contribution of one entity to
`entities e LEFT JOIN aliases a ON e.id = a.entity_id`: the entity paired
with each of its alias rows, or with `none` when it has no alias row. -/
def joinGroup (al : List AliasRow) (e : EntityRow) : List (EntityRow × Option AliasRow) :=
  match al.filter (fun a => a.entity_id = e.id) with
  | [] => [(e, none)]
  | a :: as => (a :: as).map (fun a' => (e, some a'))

/-- The row set of the left join. -/
def leftJoinRows (st : SqliteState) : List (EntityRow × Option AliasRow) :=
  st.entities.flatMap (joinGroup st.aliases)

/-- The WHERE clause of `search_entities`
(`e.label LIKE ? OR e.description LIKE ? OR a.value LIKE ?`); a NULL
alias column from the left join never matches. -/
def rowMatches (q : String) (r : EntityRow × Option AliasRow) : Bool :=
  sqlLikeQ q r.1.label || sqlLikeQ q r.1.description ||
    (match r.2 with
     | some a => sqlLikeQ q a.value
     | none => false)

/-- `SELECT DISTINCT` on the projected rows: keep the first occurrence of
every tuple. -/
def dedupKeepFirst {α : Type} [DecidableEq α] : List α → List α
  | [] => []
  | x :: xs => x :: (dedupKeepFirst xs).filter (fun y => y ≠ x)

/-- A row of the result of `WikidataSQLiteStorage.search_entities`. -/
structure SqlSearchOut where
  id : String
  label : String
  description : String
deriving DecidableEq, Repr

/-- The SELECT projection of `search_entities` (columns e.id, e.label,
e.description of a join row). -/
def projRow (r : EntityRow × Option AliasRow) : SqlSearchOut :=
  ⟨r.1.id, r.1.label, r.1.description⟩

/-- `WikidataSQLiteStorage.search_entities`: left join, WHERE filter,
DISTINCT projection to (id, label, description), then LIMIT. -/
def sqliteSearch (st : SqliteState) (q : String) (limit : Nat) : List SqlSearchOut :=
  (dedupKeepFirst (((leftJoinRows st).filter (rowMatches q)).map projRow)).take limit

/-! ## TinyDB backend -/

/-- The TinyDB store: the `entities` table as a list of raw entity
documents in insertion order. -/
structure TinyState where
  docs : List EntityRec
deriving DecidableEq, Repr

/-- The empty TinyDB `entities` table. -/
def TinyState.empty : TinyState := ⟨[]⟩

/-- The first `Option` whose value is present: TinyDB's `update` merges
the given dict into a stored document, so a key present in the update wins
and an absent key keeps the stored value. -/
def pickField {α : Type} (new old : Option α) : Option α :=
  match new with
  | some v => some v
  | none => old

/-- TinyDB `table.update(entity_data, cond)` applied to one matching
document: dict-merge of the raw record into the stored document. -/
def mergeDoc (old new : EntityRec) : EntityRec :=
  { entity_id := pickField new.entity_id old.entity_id
    label := pickField new.label old.label
    description := pickField new.description old.description
    type := pickField new.type old.type
    aliases := pickField new.aliases old.aliases
    statements := pickField new.statements old.statements }

/-- `WikidataTinyDBStorage.store_entity`: when the record's
`entity_id` is missing or falsy (empty), print a warning and return;
otherwise update every document whose `entity_id` field equals it, or
insert the record as a new document when none matches. -/
def tinyStoreEntity (st : TinyState) (rec : EntityRec) : TinyState :=
  let eid := rec.entity_id.getD ""
  if eid = "" then st
  else if st.docs.any (fun d => d.entity_id = some eid) then
    ⟨st.docs.map (fun d => if d.entity_id = some eid then mergeDoc d rec else d)⟩
  else
    ⟨st.docs ++ [rec]⟩

/-- `WikidataTinyDBStorage.store_entities` on a list input. -/
def tinyStoreEntities (st : TinyState) (recs : List EntityRec) : TinyState :=
  recs.foldl tinyStoreEntity st

/-- `WikidataTinyDBStorage.get_entity_by_id`: the first document whose
`entity_id` field equals the requested id, `None` when there is none. -/
def tinyGetEntityById (st : TinyState) (entity_id : String) : Option EntityRec :=
  st.docs.find? (fun d => d.entity_id = some entity_id)

/-- Case-insensitive prefix test over lower-cased character lists. -/
def startsAt : List Char → List Char → Bool
  | [], _ => true
  | _ :: _, [] => false
  | a :: p, c :: s => (a = c) && startsAt p s

/-- Substring occurrence test over character lists. -/
def occursIn (q : List Char) : List Char → Bool
  | [] => q.isEmpty
  | c :: s => startsAt q (c :: s) || occursIn q s

/-- Case-insensitive substring test on strings. -/
def ciContains (q s : String) : Bool :=
  occursIn (q.toList.map lowerChar) (s.toList.map lowerChar)

/-- Models `re.search(query, field, flags=re.IGNORECASE)` for query
strings free of regular-expression metacharacters: a case-insensitive
substring test. -/
def reSearchCI (q s : String) : Bool := ciContains q s

/-- The TinyDB field test `Query().f.search(query, flags=re.IGNORECASE)`:
a document without the field never matches. -/
def tinyFieldMatches (q : String) (f : Option String) : Bool :=
  match f with
  | some s => reSearchCI q s
  | none => false

/-- A row of the result of `WikidataTinyDBStorage.search_entities`
(`result.get(...)` yields `None` for a missing key). -/
structure TinySearchOut where
  id : Option String
  label : Option String
  description : Option String
deriving DecidableEq, Repr

/-- `WikidataTinyDBStorage.search_entities`: documents whose label or
description matches the query regex (aliases are not consulted),
truncated to `limit`, projected to (id, label, description). -/
def tinySearch (st : TinyState) (q : String) (limit : Nat) : List TinySearchOut :=
  ((st.docs.filter (fun d =>
      tinyFieldMatches q d.label || tinyFieldMatches q d.description)).take limit).map
    (fun d => ⟨d.entity_id, d.label, d.description⟩)

/-! ## Benchmark harness (src/main.py, run_performance_comparison)

A backend's `natural_language_query` method is modelled as a function into
`Except ε (List α)`: `Except.error` models a raised exception.  Wall-clock
times are not modelled; the harness's data flow (per-question iteration
loops, first-run result counts, exception propagation) is. -/

/-- The inner `for i in range(iterations)` loop after the first run: each
remaining iteration calls the backend again (the same pure function in
this model), discarding the result. -/
def extraRuns {ε α : Type} (nlq : String → Except ε (List α)) (q : String) :
    Nat → Except ε Unit
  | 0 => Except.ok ()
  | n + 1 => (nlq q).bind (fun _ => extraRuns nlq q n)

/-- One backend's measurement loop for one question: run `iters` times,
recording the first run's result count (`len(results) if results else 0`,
which equals the length either way).  With `iters = 0` no call is made and
the recorded count stays `0` (the subsequent average of an empty time list
would itself raise, which is outside this model). -/
def firstRunCount {ε α : Type} (nlq : String → Except ε (List α)) (q : String)
    (iters : Nat) : Except ε Nat :=
  match iters with
  | 0 => Except.ok 0
  | n + 1 => (nlq q).bind (fun r => (extraRuns nlq q n).map (fun _ => r.length))

/-- The body of the outer `for query in queries` loop: the SQLite loop runs
first, then the TinyDB loop; any raised exception propagates. -/
def harnessQuestion {ε α : Type} (sq tq : String → Except ε (List α))
    (q : String) (iters : Nat) : Except ε (Nat × Nat) :=
  (firstRunCount sq q iters).bind (fun a =>
    (firstRunCount tq q iters).map (fun b => (a, b)))

/-- `run_performance_comparison`: the recorded (SQLite, TinyDB) result
counts per question.  There is no `try`/`except` in the harness, so the
`Except` value of any backend call propagates to the caller. -/
def runPerfComparison {ε α : Type} (sq tq : String → Except ε (List α))
    (queries : List String) (iters : Nat) : Except ε (List (Nat × Nat)) :=
  match queries with
  | [] => Except.ok []
  | q :: qs =>
    (harnessQuestion sq tq q iters).bind (fun p =>
      (runPerfComparison sq tq qs iters).map (fun l => p :: l))

/-! ## Transaction trace model for store_entity (relational backend)

To reason about atomicity, `store_entity` is re-expressed as the sequence
of SQL data operations it issues on one connection, followed by a single
`commit`.  A step yields `none` when the Python code raises (`KeyError` on
a missing "entity_id" key); an engine fault at an arbitrary position is
injected by `runTrace`.  The observable state after the call is the
connection's committed state: the `except` branch rolls back and the
`finally` branch closes the connection. -/

/-- One SQL data operation of `store_entity`; `none` models a raised
Python exception inside the step. -/
def SqlStep : Type := SqliteState → Option SqliteState

/-- The `DELETE FROM aliases WHERE entity_id = ?` operation; its bound
parameter is the raw `entity_data['entity_id']` access, which raises when
the key is absent. -/
def aliasDeleteStep (eidOpt : Option String) : SqlStep :=
  fun st => eidOpt.map (fun eid =>
    { st with aliases := st.aliases.filter (fun r => r.entity_id ≠ eid) })

/-- One `INSERT INTO aliases` operation (raw `entity_data['entity_id']`). -/
def aliasInsertStep (eidOpt : Option String) (al : AliasRec) : SqlStep :=
  fun st => eidOpt.map (fun eid =>
    { st with aliases := st.aliases ++ [⟨eid, al.value, al.language⟩] })

/-- The data operations issued for the "aliases" block. -/
def aliasSteps (rec : EntityRec) : List SqlStep :=
  match rec.aliases with
  | some (a :: as) =>
    aliasDeleteStep rec.entity_id :: (a :: as).map (aliasInsertStep rec.entity_id)
  | _ => []

/-- The `DELETE FROM statements WHERE entity_id = ?` operation (raw
`entity_data['entity_id']`). -/
def stmtDeleteStep (eidOpt : Option String) : SqlStep :=
  fun st => eidOpt.map (fun eid =>
    { st with statements := st.statements.filter (fun r => r.entity_id ≠ eid) })

/-- The operations issued for one statement: when it carries a property,
an `INSERT OR REPLACE INTO properties` followed by an
`INSERT INTO statements` (raw `entity_data['entity_id']`); otherwise
nothing. -/
def perStmtSteps (eidOpt : Option String) (stm : StmtRec) : List SqlStep :=
  match stm.property with
  | none => []
  | some p =>
    [fun st => some { st with
        properties := upsertPropList st.properties p.property_id p.label },
     fun st => eidOpt.map (fun eid =>
      { st with statements :=
          st.statements ++ [⟨eid, p.property_id, stm.value, stm.entity_id⟩] })]

/-- The data operations issued for the "statements" block. -/
def stmtSteps (rec : EntityRec) : List SqlStep :=
  match rec.statements with
  | some (s :: ss) =>
    stmtDeleteStep rec.entity_id :: (s :: ss).flatMap (perStmtSteps rec.entity_id)
  | _ => []

/-- The full data-operation sequence of one `store_entity` call. -/
def storeEntitySteps (rec : EntityRec) : List SqlStep :=
  (fun st => some (upsertEntity st (entityRowOf rec)))
    :: (aliasSteps rec ++ stmtSteps rec)

/-- An operation on the connection: a data step, or the final `commit`. -/
inductive TraceOp where
  | step (f : SqlStep)
  | commit

/-- The operation trace of `store_entity`: all data steps, then exactly one
commit. -/
def storeEntityTrace (rec : EntityRec) : List TraceOp :=
  (storeEntitySteps rec).map TraceOp.step ++ [TraceOp.commit]

/-- A SQLite connection: the durable committed state and the working state
of the open transaction. -/
structure Conn where
  committed : SqliteState
  working : SqliteState

/-- Run a trace on a connection.  `fault = some k` makes the k-th operation
raise a storage-engine exception instead of executing.  A raise (injected,
or a `none` step) takes the `except` branch: roll back and close, leaving
the committed state observable.  A `commit` publishes the working state. -/
def runTrace : Conn → List TraceOp → Option Nat → SqliteState
  | c, [], _ => c.committed
  | c, TraceOp.step f :: ops, fault =>
    if fault = some 0 then c.committed
    else
      match f c.working with
      | none => c.committed
      | some w => runTrace ⟨c.committed, w⟩ ops
          (match fault with
           | some (n + 1) => some n
           | _ => none)
  | c, TraceOp.commit :: ops, fault =>
    if fault = some 0 then c.committed
    else runTrace ⟨c.working, c.working⟩ ops
        (match fault with
         | some (n + 1) => some n
         | _ => none)

/-- Sequential execution of data steps alone (the `try` block before
commit): `none` as soon as a step raises. -/
def runSteps : SqliteState → List SqlStep → Option SqliteState
  | st, [] => some st
  | st, f :: fs =>
    match f st with
    | none => none
    | some st' => runSteps st' fs

/-! ## Fault model for the relational read paths (get_entity_by_id,
search_entities)

Both methods open a connection, run read steps inside `try`, return a
fallback (`None` / `[]`) from the `except` branch, and close the
connection in the `finally` branch.  `fault = some k` injects a raised
storage-engine exception at the k-th read step; the returned pair is
(result, connection-closed). -/

/-- Run the body of a read-only query: fold the read steps over an
accumulator and finish, or take the `except` branch when a fault is
injected at an executed step; the connection is closed on every path. -/
def runReadQuery {σ ρ : Type} (steps : List (σ → σ)) (finish : σ → ρ)
    (init : σ) (fallback : ρ) (fault : Option Nat) : ρ × Bool :=
  match fault with
  | some k =>
    if k < steps.length then (fallback, true)
    else (finish (steps.foldl (fun s f => f s) init), true)
  | none => (finish (steps.foldl (fun s f => f s) init), true)

/-- The three cursor queries of `get_entity_by_id`, building the result
dict incrementally: entity row, then alias rows, then joined statement
rows. -/
def getSteps (st : SqliteState) (entity_id : String) :
    List (Option EntityOut → Option EntityOut) :=
  [fun _ => (st.entities.find? (fun e => e.id = entity_id)).map
      (fun e => ⟨e.id, e.label, e.description, e.type, [], []⟩),
   fun acc => acc.map (fun e => { e with
      aliases := (st.aliases.filter (fun a => a.entity_id = entity_id)).map
        (fun a => ⟨a.value, a.language⟩) }),
   fun acc => acc.map (fun e => { e with
      statements := (st.statements.filter (fun s => s.entity_id = entity_id)).filterMap
        (fun s => (lookupProp st.properties s.property_id).map
          (fun plabel => ⟨s.property_id, plabel, s.value, truthyRef s.entity_value_id⟩)) })]

/-- `get_entity_by_id` with fault injection: (result, connection-closed). -/
def sqliteGetWithFault (st : SqliteState) (entity_id : String)
    (fault : Option Nat) : Option EntityOut × Bool :=
  runReadQuery (getSteps st entity_id) (fun a => a) none none fault

/-- The single cursor query of `search_entities`. -/
def searchSteps (st : SqliteState) (q : String) (limit : Nat) :
    List (List SqlSearchOut → List SqlSearchOut) :=
  [fun _ => sqliteSearch st q limit]

/-- `search_entities` with fault injection: (result, connection-closed). -/
def sqliteSearchWithFault (st : SqliteState) (q : String) (limit : Nat)
    (fault : Option Nat) : List SqlSearchOut × Bool :=
  runReadQuery (searchSteps st q limit) (fun a => a) [] [] fault

/-! ## TinyDB document-count invariant (helper definitions) -/

/-- Number of documents whose `entity_id` field equals `some v`. -/
def tinyCount (st : TinyState) (v : String) : Nat :=
  (st.docs.filter (fun d => d.entity_id = some v)).length

/-- A client call against the TinyDB backend: a single `store_entity` or a
batched `store_entities`. -/
inductive TinyOp where
  | one (rec : EntityRec)
  | many (recs : List EntityRec)

/-- Apply one client call. -/
def applyTinyOp (st : TinyState) : TinyOp → TinyState
  | TinyOp.one rec => tinyStoreEntity st rec
  | TinyOp.many recs => tinyStoreEntities st recs

/-- Apply a sequence of client calls. -/
def applyTinyOps (st : TinyState) (ops : List TinyOp) : TinyState :=
  ops.foldl applyTinyOp st

/-! ## Helper lemmas -/

lemma filter_map_length_eq {α : Type} (p : α → Bool) (f : α → α)
    (l : List α) (h : ∀ d ∈ l, p (f d) = p d) :
    ((l.map f).filter p).length = (l.filter p).length := by
  induction l with
  | nil => rfl
  | cons d ds ih =>
    have hd := h d (List.mem_cons_self d ds)
    have ih' := ih (fun x hx => h x (List.mem_cons_of_mem d hx))
    simp only [List.map_cons, List.filter_cons, hd]
    cases p d <;> simp [ih']

lemma tinyStoreEntity_count_le (st : TinyState) (rec : EntityRec)
    (h : ∀ v, tinyCount st v ≤ 1) : ∀ v, tinyCount (tinyStoreEntity st rec) v ≤ 1 := by
  intro v
  unfold tinyStoreEntity
  cases hid : rec.entity_id with
  | none => simpa [hid] using h v
  | some j =>
    by_cases hj : j = ""
    · simpa [hid, hj] using h v
    · simp only [hid, Option.getD_some, hj, if_false]
      by_cases hex : st.docs.any (fun d => d.entity_id = some j) = true
      · simp only [hex, if_true]
        have hcnt : tinyCount ⟨st.docs.map (fun d =>
            if d.entity_id = some j then mergeDoc d rec else d)⟩ v
            = tinyCount st v := by
          unfold tinyCount
          apply filter_map_length_eq
          intro d _
          by_cases hd : d.entity_id = some j
          · simp [hd, mergeDoc, pickField, hid]
          · simp [hd]
        rw [hcnt]; exact h v
      · simp only [hex, if_false]
        show ((st.docs ++ [rec]).filter (fun d => d.entity_id = some v)).length ≤ 1
        rw [List.filter_append, List.length_append]
        by_cases hv : v = j
        · subst hv
          have h0 : st.docs.filter (fun d => d.entity_id = some v) = [] := by
            rw [List.filter_eq_nil_iff]
            intro d hd hdp
            exact hex (List.any_eq_true.mpr ⟨d, hd, hdp⟩)
          rw [h0]
          simp [hid]
        · have h1 : ([rec].filter (fun d => d.entity_id = some v)).length = 0 := by
            have hne : ¬ (rec.entity_id = some v) := by
              rw [hid]
              intro hc
              exact hv (Option.some.inj hc).symm
            simp [List.filter_cons, hne]
          rw [h1]
          simpa using h v

lemma tinyStoreEntities_count_le (st : TinyState) (recs : List EntityRec)
    (h : ∀ v, tinyCount st v ≤ 1) : ∀ v, tinyCount (tinyStoreEntities st recs) v ≤ 1 := by
  induction recs generalizing st with
  | nil => exact h
  | cons r rs ih => exact ih _ (tinyStoreEntity_count_le st r h)

/-! ## Claim C9 -/

/-- C9: starting from an empty TinyDB entities table, every sequence of
store_entity and store_entities calls leaves at most one document per
entity_id value: store_entity updates all (hence the one) matching
documents in place when one exists and inserts a new document only when
none does. -/
theorem c9_tiny_unique_doc_per_id :
    ∀ (ops : List TinyOp) (v : String),
      tinyCount (applyTinyOps TinyState.empty ops) v ≤ 1 := by
  have inv : ∀ (ops : List TinyOp) (st : TinyState),
      (∀ v, tinyCount st v ≤ 1) → ∀ v, tinyCount (applyTinyOps st ops) v ≤ 1 := by
    intro ops
    induction ops with
    | nil => intro st h; exact h
    | cons op rest ih =>
      intro st h
      cases op with
      | one rec => exact ih _ (tinyStoreEntity_count_le st rec h)
      | many recs => exact ih _ (tinyStoreEntities_count_le st recs h)
  intro ops v
  exact inv ops TinyState.empty (fun v => by simp [tinyCount, TinyState.empty]) v

/-! ## Claim C7 -/

/-- C7: for both backends, get_entity_by_id on an id with no stored entity
(in particular on an empty store) returns the not-found signal `none`,
never a constructed empty entity. -/
theorem c7_get_missing_none (st : SqliteState) (ts : TinyState) (i : String)
    (hsql : ∀ e ∈ st.entities, e.id ≠ i)
    (htiny : ∀ d ∈ ts.docs, d.entity_id ≠ some i) :
    sqliteGetEntityById st i = none ∧ tinyGetEntityById ts i = none := by
  constructor
  · unfold sqliteGetEntityById
    have hf : st.entities.find? (fun e => e.id = i) = none := by
      rw [List.find?_eq_none]
      intro e he
      simp [hsql e he]
    rw [hf]
  · unfold tinyGetEntityById
    rw [List.find?_eq_none]
    intro d hd
    simp [htiny d hd]

/-- Witness for C7 on concrete input: the empty stores and id "Q1". -/
theorem c7_get_missing_none_witness :
    sqliteGetEntityById SqliteState.empty "Q1" = none ∧
      tinyGetEntityById TinyState.empty "Q1" = none :=
  c7_get_missing_none SqliteState.empty TinyState.empty "Q1"
    (by intro e he; simp [SqliteState.empty] at he)
    (by intro d hd; simp [TinyState.empty] at hd)

/-! ## Claim C4 -/

/-- C4 counterexample: the relational backend does not skip a malformed
record.  Passing `store_entities` a batch holding one record with no
entity_id key (and no aliases or statements) persists an entity row under
the empty id, with no exception raised and no log emitted, contradicting
the claim that no entity derived from a malformed record is persisted. -/
theorem c4_counterexample :
    (sqliteStoreEntities SqliteState.empty
        [⟨none, some "X", none, none, none, none⟩]).entities
      = [⟨"", "X", "", ""⟩] := by
  decide

/-- C4 amended: the document backend skips a record whose entity_id is
missing or empty (state unchanged, a warning is printed) and the batch
continues with the remaining records.  The relational backend also
continues the batch after any record, but discards a malformed record
only when its entity_id key is missing AND the record carries a non-empty
alias or statement list (the `KeyError`-rollback path); otherwise the
record is persisted under the empty id. -/
theorem c4_amended (ts : TinyState) (st : SqliteState) (rec : EntityRec)
    (recs : List EntityRec)
    (hmal : rec.entity_id = none ∨ rec.entity_id = some "") :
    tinyStoreEntity ts rec = ts ∧
    tinyStoreEntities ts (rec :: recs) = tinyStoreEntities ts recs ∧
    sqliteStoreEntities st (rec :: recs)
      = sqliteStoreEntities (sqliteStoreEntity st rec) recs ∧
    (rec.entity_id = none → (aliasesTruthy rec || statementsTruthy rec) = true →
      sqliteStoreEntity st rec = st) := by
  have hskip : tinyStoreEntity ts rec = ts := by
    unfold tinyStoreEntity
    rcases hmal with h | h <;> simp [h]
  refine ⟨hskip, ?_, rfl, ?_⟩
  · show (rec :: recs).foldl tinyStoreEntity ts = tinyStoreEntities ts recs
    rw [List.foldl_cons, hskip]
    rfl
  · intro hn ht
    unfold sqliteStoreEntity storeFails
    simp [hn, ht]

/-- Witness for C4 amended at a concrete input: a record with a missing
id and one alias, followed by a well-formed record. -/
theorem c4_amended_witness :
    tinyStoreEntity TinyState.empty ⟨none, none, none, none, some [⟨"a", "en"⟩], none⟩
        = TinyState.empty ∧
      tinyStoreEntities TinyState.empty
          [⟨none, none, none, none, some [⟨"a", "en"⟩], none⟩]
        = tinyStoreEntities TinyState.empty [] ∧
      sqliteStoreEntities SqliteState.empty
          [⟨none, none, none, none, some [⟨"a", "en"⟩], none⟩]
        = sqliteStoreEntities
            (sqliteStoreEntity SqliteState.empty
              ⟨none, none, none, none, some [⟨"a", "en"⟩], none⟩) [] ∧
      (EntityRec.entity_id ⟨none, none, none, none, some [⟨"a", "en"⟩], none⟩ = none →
        (aliasesTruthy ⟨none, none, none, none, some [⟨"a", "en"⟩], none⟩ ||
          statementsTruthy ⟨none, none, none, none, some [⟨"a", "en"⟩], none⟩) = true →
        sqliteStoreEntity SqliteState.empty
            ⟨none, none, none, none, some [⟨"a", "en"⟩], none⟩
          = SqliteState.empty) := by
  have h := c4_amended TinyState.empty SqliteState.empty
    ⟨none, none, none, none, some [⟨"a", "en"⟩], none⟩ [] (Or.inl rfl)
  exact ⟨h.1, h.2.1, h.2.2.1, h.2.2.2⟩

/-! ## Claim C5 -/

/-- C5 counterexample: an exception from a backend call during a timed run
is not caught by run_performance_comparison; it propagates out and aborts
the whole comparison (the harness yields the error instead of a report). -/
theorem c5_counterexample :
    runPerfComparison (fun _ => Except.error 0)
        (fun _ => Except.ok ([] : List Nat)) ["x"] 5
      = Except.error 0 := by
  rfl

lemma extraRuns_ok {ε α : Type} (nlq : String → Except ε (List α)) (q : String)
    (v : List α) (h : nlq q = Except.ok v) :
    ∀ n, extraRuns nlq q n = Except.ok () := by
  intro n
  induction n with
  | zero => rfl
  | succ n ih => simp [extraRuns, h, Except.bind, ih]

/-- C5 amended: the harness has no exception handling at all.  If either
backend's natural_language_query raises on some question in the list and
at least one iteration is performed, run_performance_comparison does not
return a report: the exception propagates and the whole comparison is
aborted. -/
theorem c5_amended {ε α : Type} (sq tq : String → Except ε (List α))
    (queries : List String) (iters : Nat) (q : String) (e : ε)
    (hq : q ∈ queries) (hi : 1 ≤ iters)
    (hfail : sq q = Except.error e ∨ tq q = Except.error e) :
    ∃ e', runPerfComparison sq tq queries iters = Except.error e' := by
  induction queries with
  | nil => cases hq
  | cons h t ih =>
    rcases List.mem_cons.mp hq with rfl | hmem
    · obtain ⟨n, rfl⟩ : ∃ n, iters = n + 1 := ⟨iters - 1, by omega⟩
      rcases hfail with hf | hf
      · refine ⟨e, ?_⟩
        simp [runPerfComparison, harnessQuestion, firstRunCount, hf, Except.bind]
      · cases hsq : sq q with
        | error e2 =>
          refine ⟨e2, ?_⟩
          simp [runPerfComparison, harnessQuestion, firstRunCount, hsq, Except.bind]
        | ok v =>
          refine ⟨e, ?_⟩
          simp [runPerfComparison, harnessQuestion, firstRunCount, hsq, hf,
            extraRuns_ok sq q v hsq, Except.bind, Except.map]
    · cases hh : harnessQuestion sq tq h iters with
      | error e2 =>
        refine ⟨e2, ?_⟩
        simp [runPerfComparison, hh, Except.bind]
      | ok p =>
        obtain ⟨e', he'⟩ := ih hmem
        refine ⟨e', ?_⟩
        simp [runPerfComparison, hh, Except.bind, he', Except.map]

/-- Witness for C5 amended at a concrete input: one question, three
iterations, a SQLite backend that raises. -/
theorem c5_amended_witness :
    ∃ e', runPerfComparison (fun _ => Except.error (1 : Nat))
        (fun _ => Except.ok ([] : List Nat)) ["y"] 3 = Except.error e' :=
  c5_amended (fun _ => Except.error (1 : Nat)) (fun _ => Except.ok ([] : List Nat))
    ["y"] 3 "y" 1 (by simp) (by omega) (Or.inl rfl)

/-! ## Trace lemmas for the relational store (claims C6, C10) -/

lemma runSteps_append (st : SqliteState) (l1 l2 : List SqlStep) :
    runSteps st (l1 ++ l2) = (runSteps st l1).bind (fun s => runSteps s l2) := by
  induction l1 generalizing st with
  | nil => rfl
  | cons f fs ih =>
    simp only [List.cons_append, runSteps]
    cases hf : f st with
    | none => rfl
    | some s => exact ih s

lemma runTrace_fault (steps : List SqlStep) :
    ∀ (c : Conn) (k : Nat), k < steps.length + 1 →
      runTrace c (steps.map TraceOp.step ++ [TraceOp.commit]) (some k) = c.committed := by
  induction steps with
  | nil =>
    intro c k hk
    have hz : k = 0 := by
      simp only [List.length_nil] at hk
      omega
    subst hz
    simp [runTrace]
  | cons f fs ih =>
    intro c k hk
    cases k with
    | zero => simp [runTrace]
    | succ n =>
      simp only [List.map_cons, List.cons_append, runTrace]
      rw [if_neg (by simp)]
      cases hf : f c.working with
      | none => rfl
      | some w =>
        show runTrace ⟨c.committed, w⟩ (fs.map TraceOp.step ++ [TraceOp.commit]) (some n)
          = c.committed
        exact ih ⟨c.committed, w⟩ n (by
          simp only [List.length_cons] at hk
          omega)

lemma runTrace_none (steps : List SqlStep) :
    ∀ c : Conn,
      runTrace c (steps.map TraceOp.step ++ [TraceOp.commit]) none
        = match runSteps c.working steps with
          | some w => w
          | none => c.committed := by
  induction steps with
  | nil =>
    intro c
    simp [runTrace, runSteps]
  | cons f fs ih =>
    intro c
    simp only [List.map_cons, List.cons_append, runTrace, runSteps]
    rw [if_neg (by simp)]
    cases hf : f c.working with
    | none => simp [hf]
    | some w =>
      simp only [hf]
      exact ih ⟨c.committed, w⟩

lemma runSteps_cons_some {f : SqlStep} {st y : SqliteState} (h : f st = some y)
    (fs : List SqlStep) : runSteps st (f :: fs) = runSteps y fs := by
  simp [runSteps, h]

lemma runSteps_aliasInserts (i : String) :
    ∀ (as : List AliasRec) (st : SqliteState),
      runSteps st (as.map (aliasInsertStep (some i)))
        = some { st with aliases :=
            st.aliases ++ as.map (fun al => ⟨i, al.value, al.language⟩) } := by
  intro as
  induction as with
  | nil => intro st; simp [runSteps]
  | cons a as ih =>
    intro st
    simp only [List.map_cons, runSteps, aliasInsertStep, Option.map_some']
    rw [ih]
    simp [List.append_assoc]

lemma runSteps_perStmt (i : String) :
    ∀ (ss : List StmtRec) (st : SqliteState),
      runSteps st (ss.flatMap (perStmtSteps (some i)))
        = some (ss.foldl (applyStmt i) st) := by
  intro ss
  induction ss with
  | nil => intro st; rfl
  | cons stm ss ih =>
    intro st
    cases hp : stm.property with
    | none =>
      simp only [List.flatMap_cons, perStmtSteps, hp, List.nil_append, List.foldl_cons]
      rw [show applyStmt i st stm = st by simp [applyStmt, hp]]
      exact ih st
    | some p =>
      simp only [List.flatMap_cons, perStmtSteps, hp, List.cons_append,
        List.foldl_cons, runSteps, Option.map_some']
      rw [show applyStmt i st stm = { st with
          properties := upsertPropList st.properties p.property_id p.label,
          statements := st.statements ++ [⟨i, p.property_id, stm.value, stm.entity_id⟩] }
        by simp [applyStmt, hp]]
      exact ih _

lemma runSteps_aliasSteps (rec : EntityRec) (i : String) (hid : rec.entity_id = some i)
    (st : SqliteState) :
    runSteps st (aliasSteps rec) = some (aliasPhase rec st) := by
  cases hA : rec.aliases with
  | none => simp [aliasSteps, hA, runSteps, aliasPhase, aliasesTruthy]
  | some la =>
    cases la with
    | nil => simp [aliasSteps, hA, runSteps, aliasPhase, aliasesTruthy]
    | cons a as =>
      simp only [aliasSteps, hA, hid]
      rw [runSteps_cons_some (show aliasDeleteStep (some i) st
          = some { st with aliases := st.aliases.filter (fun r => r.entity_id ≠ i) }
          by simp [aliasDeleteStep]) ((a :: as).map (aliasInsertStep (some i)))]
      rw [runSteps_aliasInserts i (a :: as)]
      simp [aliasPhase, aliasesTruthy, hA, hid]

lemma runSteps_stmtSteps (rec : EntityRec) (i : String) (hid : rec.entity_id = some i)
    (st : SqliteState) :
    runSteps st (stmtSteps rec) = some (stmtPhase rec st) := by
  cases hS : rec.statements with
  | none => simp [stmtSteps, hS, runSteps, stmtPhase, statementsTruthy]
  | some ls =>
    cases ls with
    | nil => simp [stmtSteps, hS, runSteps, stmtPhase, statementsTruthy]
    | cons s ss =>
      simp only [stmtSteps, hS, hid]
      rw [runSteps_cons_some (show stmtDeleteStep (some i) st
          = some { st with statements := st.statements.filter (fun r => r.entity_id ≠ i) }
          by simp [stmtDeleteStep]) ((s :: ss).flatMap (perStmtSteps (some i)))]
      rw [runSteps_perStmt i (s :: ss)]
      simp [stmtPhase, statementsTruthy, hS, hid]

lemma runSteps_storeEntitySteps (st : SqliteState) (rec : EntityRec) :
    runSteps st (storeEntitySteps rec)
      = if storeFails rec then none else some (sqliteStoreEntity st rec) := by
  cases hid : rec.entity_id with
  | none =>
    cases hA : rec.aliases with
    | some la =>
      cases la with
      | cons a as =>
        simp [storeEntitySteps, aliasSteps, aliasDeleteStep, hA, runSteps, hid,
          storeFails, aliasesTruthy]
      | nil =>
        cases hS : rec.statements with
        | some ls =>
          cases ls with
          | cons s ss =>
            simp [storeEntitySteps, aliasSteps, stmtSteps, stmtDeleteStep, hA, hS,
              runSteps, hid, storeFails, aliasesTruthy, statementsTruthy]
          | nil =>
            simp [storeEntitySteps, aliasSteps, stmtSteps, hA, hS, runSteps, hid,
              storeFails, aliasesTruthy, statementsTruthy, sqliteStoreEntity,
              aliasPhase, stmtPhase]
        | none =>
          simp [storeEntitySteps, aliasSteps, stmtSteps, hA, hS, runSteps, hid,
            storeFails, aliasesTruthy, statementsTruthy, sqliteStoreEntity,
            aliasPhase, stmtPhase]
    | none =>
      cases hS : rec.statements with
      | some ls =>
        cases ls with
        | cons s ss =>
          simp [storeEntitySteps, aliasSteps, stmtSteps, stmtDeleteStep, hA, hS,
            runSteps, hid, storeFails, aliasesTruthy, statementsTruthy]
        | nil =>
          simp [storeEntitySteps, aliasSteps, stmtSteps, hA, hS, runSteps, hid,
            storeFails, aliasesTruthy, statementsTruthy, sqliteStoreEntity,
            aliasPhase, stmtPhase]
      | none =>
        simp [storeEntitySteps, aliasSteps, stmtSteps, hA, hS, runSteps, hid,
          storeFails, aliasesTruthy, statementsTruthy, sqliteStoreEntity,
          aliasPhase, stmtPhase]
  | some i =>
    have hnf : storeFails rec = false := by simp [storeFails, hid]
    rw [hnf]
    simp only [Bool.false_eq_true, if_false]
    unfold storeEntitySteps
    simp only [runSteps]
    rw [runSteps_append, runSteps_aliasSteps rec i hid]
    simp only [Option.some_bind]
    rw [runSteps_stmtSteps rec i hid]
    unfold sqliteStoreEntity
    rw [hnf]
    simp

/-! ## Claim C6 -/

/-- C6: the relational store_entity is atomic per entity: a failure at any
step of its operation sequence (entity insert, alias delete/insert,
property upsert, statement delete/insert — whether an injected
storage-engine fault or the code's own KeyError) reaches the rollback
branch before the single final commit, leaving all four tables exactly as
before the call; the fault-free run agrees with the direct model of
store_entity, and a batch continues with the next record regardless. -/
theorem c6_store_atomic (st : SqliteState) (rec : EntityRec) (k : Nat)
    (hk : k < (storeEntityTrace rec).length) :
    runTrace ⟨st, st⟩ (storeEntityTrace rec) (some k) = st ∧
    runTrace ⟨st, st⟩ (storeEntityTrace rec) none = sqliteStoreEntity st rec ∧
    ∀ recs, sqliteStoreEntities st (rec :: recs)
      = sqliteStoreEntities (sqliteStoreEntity st rec) recs := by
  refine ⟨?_, ?_, fun recs => rfl⟩
  · apply runTrace_fault
    unfold storeEntityTrace at hk
    simpa using hk
  · unfold storeEntityTrace
    rw [runTrace_none]
    show (match runSteps st (storeEntitySteps rec) with
          | some w => w
          | none => st) = _
    rw [runSteps_storeEntitySteps]
    by_cases hf : storeFails rec = true
    · simp [hf, sqliteStoreEntity]
    · simp only [Bool.not_eq_true] at hf
      simp [hf]

/-- Witness for C6 at a concrete input: a fault injected at the first
operation of storing a one-alias record over the empty database. -/
theorem c6_store_atomic_witness :
    runTrace ⟨SqliteState.empty, SqliteState.empty⟩
        (storeEntityTrace ⟨some "Q1", some "A", none, none, some [⟨"x", "en"⟩], none⟩)
        (some 0) = SqliteState.empty ∧
      runTrace ⟨SqliteState.empty, SqliteState.empty⟩
        (storeEntityTrace ⟨some "Q1", some "A", none, none, some [⟨"x", "en"⟩], none⟩)
        none
        = sqliteStoreEntity SqliteState.empty
            ⟨some "Q1", some "A", none, none, some [⟨"x", "en"⟩], none⟩ ∧
      ∀ recs, sqliteStoreEntities SqliteState.empty
          (⟨some "Q1", some "A", none, none, some [⟨"x", "en"⟩], none⟩ :: recs)
        = sqliteStoreEntities
            (sqliteStoreEntity SqliteState.empty
              ⟨some "Q1", some "A", none, none, some [⟨"x", "en"⟩], none⟩) recs :=
  c6_store_atomic SqliteState.empty
    ⟨some "Q1", some "A", none, none, some [⟨"x", "en"⟩], none⟩ 0
    (by simp [storeEntityTrace, storeEntitySteps, aliasSteps, stmtSteps])

/-! ## Claim C10 -/

/-- C10: the relational get_entity_by_id and search_entities never
propagate an exception: a storage-engine fault injected at any step of the
query body takes the except branch, yielding None (resp. the empty list),
and the finally branch closes the connection on the failure path as well
as on the success path, whose result agrees with the direct model. -/
theorem c10_reads_safe (st : SqliteState) (i q : String) (limit : Nat)
    (fault : Option Nat) :
    (sqliteGetWithFault st i fault).2 = true ∧
    (sqliteSearchWithFault st q limit fault).2 = true ∧
    (∀ k, fault = some k → k < (getSteps st i).length →
      (sqliteGetWithFault st i fault).1 = none) ∧
    (∀ k, fault = some k → k < (searchSteps st q limit).length →
      (sqliteSearchWithFault st q limit fault).1 = []) ∧
    (sqliteGetWithFault st i none).1 = sqliteGetEntityById st i ∧
    (sqliteSearchWithFault st q limit none).1 = sqliteSearch st q limit := by
  refine ⟨?_, ?_, ?_, ?_, ?_, rfl⟩
  · cases fault with
    | none => rfl
    | some k =>
      unfold sqliteGetWithFault runReadQuery
      by_cases hk : k < (getSteps st i).length <;> simp [hk]
  · cases fault with
    | none => rfl
    | some k =>
      unfold sqliteSearchWithFault runReadQuery
      by_cases hk : k < (searchSteps st q limit).length <;> simp [hk]
  · intro k hfk hk
    subst hfk
    unfold sqliteGetWithFault runReadQuery
    simp [hk]
  · intro k hfk hk
    subst hfk
    unfold sqliteSearchWithFault runReadQuery
    simp [hk]
  · unfold sqliteGetWithFault runReadQuery getSteps sqliteGetEntityById
    cases hfind : st.entities.find? (fun e => e.id = i) with
    | none => simp [hfind]
    | some e => simp [hfind]

/-- Witness for C10 at a concrete input: a fault injected at the first
step of each read against the empty database. -/
theorem c10_reads_safe_witness :
    (sqliteGetWithFault SqliteState.empty "Q1" (some 0)).1 = none ∧
      (sqliteSearchWithFault SqliteState.empty "q" 10 (some 0)).1 = [] ∧
      (sqliteGetWithFault SqliteState.empty "Q1" (some 0)).2 = true :=
  have h := c10_reads_safe SqliteState.empty "Q1" "q" 10 (some 0)
  ⟨h.2.2.1 0 rfl (by simp [getSteps]), h.2.2.2.1 0 rfl (by simp [searchSteps]), h.1⟩

/-! ## Property-table machinery (claim C8) -/

/-- The property upserts committed by one `store_entity` call: none when
the call rolls back or the statements block is skipped, otherwise one
upsert per statement carrying a property, in statement order. -/
def recPropUpserts (rec : EntityRec) : List PropRec :=
  if storeFails rec then []
  else if statementsTruthy rec then
    (rec.statements.getD []).filterMap (fun s => s.property)
  else []

/-- The label predicted for a property id after a batch: the label of the
last committed statement mentioning that id. -/
def lastStoredLabel (recs : List EntityRec) (pid : String) : Option String :=
  (((recs.flatMap recPropUpserts).filter
      (fun p => p.property_id = pid)).getLast?).map (fun p => p.label)

lemma find?_filter_of_imp {α : Type} (l : List α) (p q : α → Bool)
    (h : ∀ x, p x = true → q x = true) :
    (l.filter q).find? p = l.find? p := by
  induction l with
  | nil => rfl
  | cons a l ih =>
    by_cases hp : p a = true
    · rw [List.filter_cons_of_pos (h a hp), List.find?_cons_of_pos _ hp,
        List.find?_cons_of_pos _ hp]
    · by_cases hq : q a = true
      · rw [List.filter_cons_of_pos hq, List.find?_cons_of_neg _ (by simp [hp]),
          List.find?_cons_of_neg _ (by simp [hp]), ih]
      · rw [List.filter_cons_of_neg (by simp [hq]),
          List.find?_cons_of_neg _ (by simp [hp]), ih]

lemma lookupProp_upsert (ps : List (String × String)) (pid l q : String) :
    lookupProp (upsertPropList ps pid l) q
      = if q = pid then some l else lookupProp ps q := by
  unfold lookupProp upsertPropList
  rw [List.find?_append]
  by_cases h : q = pid
  · subst h
    have h1 : (ps.filter (fun p => p.1 ≠ q)).find? (fun p => p.1 = q) = none := by
      rw [List.find?_eq_none]
      intro x hx
      have hx2 : x.1 ≠ q := by simpa using (List.mem_filter.mp hx).2
      simpa using hx2
    rw [h1]
    simp
  · have h2 : List.find? (fun p => p.1 = q) [(pid, l)] = none := by
      rw [List.find?_eq_none]
      intro x hx
      simp only [List.mem_singleton] at hx
      subst hx
      simpa using fun hc => h hc.symm
    have h3 : (ps.filter (fun p => p.1 ≠ pid)).find? (fun p => p.1 = q)
        = ps.find? (fun p => p.1 = q) := by
      apply find?_filter_of_imp
      intro x hx
      have hx2 : x.1 = q := by simpa using hx
      simpa [hx2] using h
    rw [h3, h2]
    simp [h]

lemma lookupProp_foldl (us : List PropRec) :
    ∀ (ps : List (String × String)) (q : String),
      lookupProp (us.foldl (fun acc p => upsertPropList acc p.property_id p.label) ps) q
        = match (us.filter (fun p => p.property_id = q)).getLast? with
          | some p => some p.label
          | none => lookupProp ps q := by
  induction us with
  | nil => intro ps q; rfl
  | cons u us ih =>
    intro ps q
    rw [List.foldl_cons, ih]
    cases hL : (us.filter (fun p => p.property_id = q)).getLast? with
    | some p =>
      by_cases hu : u.property_id = q
      · rw [List.filter_cons_of_pos (by simp [hu])]
        rw [show u :: us.filter (fun p => p.property_id = q)
            = [u] ++ us.filter (fun p => p.property_id = q) from rfl]
        rw [List.getLast?_append, hL]
        rfl
      · rw [List.filter_cons_of_neg (by simp [hu]), hL]
    | none =>
      have h0 : us.filter (fun p => p.property_id = q) = [] :=
        List.getLast?_eq_none_iff.mp hL
      rw [lookupProp_upsert]
      by_cases hu : u.property_id = q
      · rw [List.filter_cons_of_pos (by simp [hu]), h0]
        simp [hu.symm]
      · rw [List.filter_cons_of_neg (by simp [hu]), h0]
        simp only [List.getLast?_nil]
        rw [if_neg (fun hc => hu hc.symm)]

lemma foldl_applyStmt_properties (i : String) :
    ∀ (ss : List StmtRec) (st : SqliteState),
      (ss.foldl (applyStmt i) st).properties
        = (ss.filterMap (fun s => s.property)).foldl
            (fun acc p => upsertPropList acc p.property_id p.label) st.properties := by
  intro ss
  induction ss with
  | nil => intro st; rfl
  | cons s ss ih =>
    intro st
    cases hp : s.property with
    | none =>
      rw [List.foldl_cons, List.filterMap_cons_none hp, ih]
      have : applyStmt i st s = st := by simp [applyStmt, hp]
      rw [this]
    | some p =>
      rw [List.foldl_cons, List.filterMap_cons_some hp, List.foldl_cons, ih]
      have : (applyStmt i st s).properties
          = upsertPropList st.properties p.property_id p.label := by
        simp [applyStmt, hp]
      rw [this]

lemma aliasPhase_properties (rec : EntityRec) (st : SqliteState) :
    (aliasPhase rec st).properties = st.properties := by
  unfold aliasPhase
  split <;> rfl

lemma storeEntity_properties (st : SqliteState) (rec : EntityRec) :
    (sqliteStoreEntity st rec).properties
      = (recPropUpserts rec).foldl
          (fun acc p => upsertPropList acc p.property_id p.label) st.properties := by
  unfold sqliteStoreEntity recPropUpserts
  by_cases hf : storeFails rec = true
  · simp [hf]
  · simp only [Bool.not_eq_true] at hf
    simp only [hf, Bool.false_eq_true, if_false]
    unfold stmtPhase
    by_cases hs : statementsTruthy rec = true
    · simp only [hs, if_true]
      rw [foldl_applyStmt_properties]
      have : ({ aliasPhase rec (upsertEntity st (entityRowOf rec)) with
          statements := (aliasPhase rec (upsertEntity st (entityRowOf rec))).statements.filter
            (fun s => s.entity_id ≠ rec.entity_id.getD "") } : SqliteState).properties
          = st.properties := by
        rw [show ({ aliasPhase rec (upsertEntity st (entityRowOf rec)) with
            statements := (aliasPhase rec (upsertEntity st (entityRowOf rec))).statements.filter
              (fun s => s.entity_id ≠ rec.entity_id.getD "") } : SqliteState).properties
            = (aliasPhase rec (upsertEntity st (entityRowOf rec))).properties from rfl]
        rw [aliasPhase_properties]
        rfl
      rw [this]
    · simp only [hs, Bool.false_eq_true, if_false]
      rw [aliasPhase_properties]
      rfl

lemma upsertPropList_nodup (ps : List (String × String)) (pid l : String)
    (h : (ps.map Prod.fst).Nodup) :
    ((upsertPropList ps pid l).map Prod.fst).Nodup := by
  unfold upsertPropList
  rw [List.map_append]
  apply List.Nodup.append
  · exact ((List.filter_sublist ps).map Prod.fst).nodup h
  · simp
  · intro x hx hx2
    simp only [List.map_cons, List.map_nil, List.mem_singleton] at hx2
    obtain ⟨p, hp, hpe⟩ := List.mem_map.mp hx
    have h2 : p.1 ≠ pid := by simpa using (List.mem_filter.mp hp).2
    exact h2 (hpe.trans hx2)

lemma foldl_upsert_nodup (us : List PropRec) :
    ∀ ps : List (String × String), (ps.map Prod.fst).Nodup →
      (((us.foldl (fun acc p => upsertPropList acc p.property_id p.label) ps)).map
        Prod.fst).Nodup := by
  induction us with
  | nil => intro ps h; exact h
  | cons u us ih =>
    intro ps h
    rw [List.foldl_cons]
    exact ih _ (upsertPropList_nodup ps u.property_id u.label h)

lemma storeEntities_lookup (recs : List EntityRec) :
    ∀ (st : SqliteState) (q : String),
      lookupProp (sqliteStoreEntities st recs).properties q
        = match ((recs.flatMap recPropUpserts).filter
              (fun p => p.property_id = q)).getLast? with
          | some p => some p.label
          | none => lookupProp st.properties q := by
  induction recs with
  | nil => intro st q; rfl
  | cons r rs ih =>
    intro st q
    show lookupProp (sqliteStoreEntities (sqliteStoreEntity st r) rs).properties q = _
    rw [ih, List.flatMap_cons, List.filter_append, List.getLast?_append]
    cases hr : ((rs.flatMap recPropUpserts).filter
        (fun p => p.property_id = q)).getLast? with
    | some p => rfl
    | none =>
      show lookupProp (sqliteStoreEntity st r).properties q = _
      rw [storeEntity_properties, lookupProp_foldl]
      rfl

/-! ## Claim C8 -/

/-- C8: after any sequence of store_entity calls from a fresh relational
database, the properties table has at most one row per property id
(primary-key upsert keeps ids unique), and the label stored for an id is
exactly the one carried by the last committed statement mentioning that
id — last-seen label wins; an id never mentioned has no row. -/
theorem c8_properties_dedup_last_wins (recs : List EntityRec) (pid : String) :
    ((sqliteStoreEntities SqliteState.empty recs).properties.map Prod.fst).Nodup ∧
    lookupProp (sqliteStoreEntities SqliteState.empty recs).properties pid
      = lastStoredLabel recs pid := by
  constructor
  · have h : ∀ (rs : List EntityRec) (st : SqliteState),
        (st.properties.map Prod.fst).Nodup →
        ((sqliteStoreEntities st rs).properties.map Prod.fst).Nodup := by
      intro rs
      induction rs with
      | nil => intro st h; exact h
      | cons r rs ih =>
        intro st hst
        refine ih _ ?_
        rw [storeEntity_properties]
        exact foldl_upsert_nodup _ _ hst
    exact h recs SqliteState.empty (by simp [SqliteState.empty])
  · rw [storeEntities_lookup]
    unfold lastStoredLabel
    cases hL : ((recs.flatMap recPropUpserts).filter
        (fun p => p.property_id = pid)).getLast? with
    | some p => rfl
    | none => rfl

/-! ## Round-trip machinery (claims C1, C2) -/

/-- Abstraction of a raw statement into the shape `get_entity_by_id`
returns: property id and label, literal value, and the referenced entity id
only when truthy; `none` for a statement without a property (such
statements are dropped by the relational store). -/
def absStmtOut (s : StmtRec) : Option StatementOut :=
  s.property.map (fun p => ⟨p.property_id, p.label, s.value, truthyRef s.entity_id⟩)

lemma aliasesTruthy_false_getD {rec : EntityRec} (h : aliasesTruthy rec = false) :
    rec.aliases.getD [] = [] := by
  unfold aliasesTruthy at h
  cases ha : rec.aliases with
  | none => rfl
  | some l =>
    cases l with
    | nil => rfl
    | cons a as => rw [ha] at h; cases h

lemma statementsTruthy_false_getD {rec : EntityRec} (h : statementsTruthy rec = false) :
    rec.statements.getD [] = [] := by
  unfold statementsTruthy at h
  cases ha : rec.statements with
  | none => rfl
  | some l =>
    cases l with
    | nil => rfl
    | cons a as => rw [ha] at h; cases h

lemma find?_append_left_none {α : Type} {l1 l2 : List α} {p : α → Bool}
    (h : l1.find? p = none) : (l1 ++ l2).find? p = l2.find? p := by
  rw [List.find?_append, h, Option.none_or]

lemma filter_ne_then_eq {α : Type} (f : α → String) (i : String) (l : List α) :
    (l.filter (fun a => f a ≠ i)).filter (fun a => f a = i) = [] := by
  rw [List.filter_eq_nil_iff]
  intro a ha
  have h2 : f a ≠ i := by simpa using (List.mem_filter.mp ha).2
  simpa using h2

lemma filter_eq_of_all {α : Type} (f : α → String) (i : String) (l : List α)
    (h : ∀ a ∈ l, f a = i) : l.filter (fun a => f a = i) = l :=
  List.filter_eq_self.mpr (fun a ha => by simp [h a ha])

lemma aliasRow_roundtrip (i : String) (as : List AliasRec) :
    ((as.map (fun a => (⟨i, a.value, a.language⟩ : AliasRow))).map
      (fun r => (⟨r.value, r.language⟩ : AliasRec))) = as := by
  induction as with
  | nil => rfl
  | cons a as ih => simp [ih]

lemma foldl_applyStmt_entities (i : String) :
    ∀ (ss : List StmtRec) (st : SqliteState),
      (ss.foldl (applyStmt i) st).entities = st.entities := by
  intro ss
  induction ss with
  | nil => intro st; rfl
  | cons s ss ih =>
    intro st
    rw [List.foldl_cons, ih]
    cases hp : s.property <;> simp [applyStmt, hp]

lemma foldl_applyStmt_aliases (i : String) :
    ∀ (ss : List StmtRec) (st : SqliteState),
      (ss.foldl (applyStmt i) st).aliases = st.aliases := by
  intro ss
  induction ss with
  | nil => intro st; rfl
  | cons s ss ih =>
    intro st
    rw [List.foldl_cons, ih]
    cases hp : s.property <;> simp [applyStmt, hp]

lemma foldl_applyStmt_statements (i : String) :
    ∀ (ss : List StmtRec) (st : SqliteState),
      (ss.foldl (applyStmt i) st).statements
        = st.statements ++ ss.filterMap (fun s =>
            s.property.map (fun p => (⟨i, p.property_id, s.value, s.entity_id⟩ : StmtRow))) := by
  intro ss
  induction ss with
  | nil => intro st; simp
  | cons s ss ih =>
    intro st
    rw [List.foldl_cons, ih]
    cases hp : s.property with
    | none =>
      rw [List.filterMap_cons_none (by simp [hp])]
      have : applyStmt i st s = st := by simp [applyStmt, hp]
      rw [this]
    | some p =>
      have h1 : (applyStmt i st s).statements
          = st.statements ++ [⟨i, p.property_id, s.value, s.entity_id⟩] := by
        simp [applyStmt, hp]
      have hR : List.filterMap (fun s => s.property.map (fun p =>
            (⟨i, p.property_id, s.value, s.entity_id⟩ : StmtRow))) (s :: ss)
          = ⟨i, p.property_id, s.value, s.entity_id⟩
              :: List.filterMap (fun s => s.property.map (fun p =>
                (⟨i, p.property_id, s.value, s.entity_id⟩ : StmtRow))) ss := by
        rw [List.filterMap_cons]
        simp [hp]
      rw [h1, List.append_assoc, hR]
      rfl

lemma stmtPhase_entities (rec : EntityRec) (st : SqliteState) :
    (stmtPhase rec st).entities = st.entities := by
  unfold stmtPhase
  by_cases hs : statementsTruthy rec = true
  · simp only [hs, if_true]
    rw [foldl_applyStmt_entities]
  · simp [hs]

lemma stmtPhase_aliases (rec : EntityRec) (st : SqliteState) :
    (stmtPhase rec st).aliases = st.aliases := by
  unfold stmtPhase
  by_cases hs : statementsTruthy rec = true
  · simp only [hs, if_true]
    rw [foldl_applyStmt_aliases]
  · simp [hs]

lemma aliasPhase_entities (rec : EntityRec) (st : SqliteState) :
    (aliasPhase rec st).entities = st.entities := by
  unfold aliasPhase
  by_cases ha : aliasesTruthy rec = true <;> simp [ha]

lemma storeEntity_entities (st : SqliteState) (rec : EntityRec) (i : String)
    (hid : rec.entity_id = some i) :
    (sqliteStoreEntity st rec).entities
      = st.entities.filter (fun e => e.id ≠ i)
          ++ [⟨i, rec.label.getD "", rec.description.getD "", rec.type.getD ""⟩] := by
  have hnf : storeFails rec = false := by simp [storeFails, hid]
  unfold sqliteStoreEntity
  rw [hnf]
  simp only [Bool.false_eq_true, if_false]
  rw [stmtPhase_entities, aliasPhase_entities]
  simp [upsertEntity, entityRowOf, hid]

lemma storeEntity_aliases (st : SqliteState) (rec : EntityRec) (i : String)
    (hid : rec.entity_id = some i) :
    (sqliteStoreEntity st rec).aliases
      = if aliasesTruthy rec then
          st.aliases.filter (fun a => a.entity_id ≠ i)
            ++ (rec.aliases.getD []).map (fun a => ⟨i, a.value, a.language⟩)
        else st.aliases := by
  have hnf : storeFails rec = false := by simp [storeFails, hid]
  unfold sqliteStoreEntity
  rw [hnf]
  simp only [Bool.false_eq_true, if_false]
  rw [stmtPhase_aliases]
  unfold aliasPhase
  by_cases ha : aliasesTruthy rec = true <;> simp [ha, hid, upsertEntity]

lemma storeEntity_statements (st : SqliteState) (rec : EntityRec) (i : String)
    (hid : rec.entity_id = some i) :
    (sqliteStoreEntity st rec).statements
      = if statementsTruthy rec then
          st.statements.filter (fun s => s.entity_id ≠ i)
            ++ (rec.statements.getD []).filterMap (fun s =>
              s.property.map (fun p => (⟨i, p.property_id, s.value, s.entity_id⟩ : StmtRow)))
        else st.statements := by
  have hnf : storeFails rec = false := by simp [storeFails, hid]
  unfold sqliteStoreEntity
  rw [hnf]
  simp only [Bool.false_eq_true, if_false]
  unfold stmtPhase
  by_cases hs : statementsTruthy rec = true
  · simp only [hs, if_true]
    rw [foldl_applyStmt_statements]
    have h1 : (aliasPhase rec (upsertEntity st (entityRowOf rec))).statements
        = st.statements := by
      unfold aliasPhase
      by_cases ha : aliasesTruthy rec = true <;> simp [ha, upsertEntity]
    simp [h1, hid]
  · simp only [hs, Bool.false_eq_true, if_false]
    have h1 : (aliasPhase rec (upsertEntity st (entityRowOf rec))).statements
        = st.statements := by
      unfold aliasPhase
      by_cases ha : aliasesTruthy rec = true <;> simp [ha, upsertEntity]
    simp [h1]

lemma storeEntity_lookup_own_label (st : SqliteState) (rec : EntityRec) (i : String)
    (hid : rec.entity_id = some i) (hsT : statementsTruthy rec = true)
    (hcons : ∀ p ∈ (rec.statements.getD []).filterMap (fun s => s.property),
      ∀ p' ∈ (rec.statements.getD []).filterMap (fun s => s.property),
      p.property_id = p'.property_id → p.label = p'.label) :
    ∀ s ∈ rec.statements.getD [], ∀ p, s.property = some p →
      lookupProp (sqliteStoreEntity st rec).properties p.property_id = some p.label := by
  intro s hs p hp
  have hnf : storeFails rec = false := by simp [storeFails, hid]
  rw [storeEntity_properties]
  have hru : recPropUpserts rec
      = (rec.statements.getD []).filterMap (fun s => s.property) := by
    unfold recPropUpserts
    rw [hnf]
    simp [hsT]
  rw [hru, lookupProp_foldl]
  have hpin : p ∈ (rec.statements.getD []).filterMap (fun s => s.property) :=
    List.mem_filterMap.mpr ⟨s, hs, hp⟩
  have hfin : p ∈ ((rec.statements.getD []).filterMap (fun s => s.property)).filter
      (fun p' => p'.property_id = p.property_id) :=
    List.mem_filter.mpr ⟨hpin, by simp⟩
  cases hL : (((rec.statements.getD []).filterMap (fun s => s.property)).filter
      (fun p' => p'.property_id = p.property_id)).getLast? with
  | none =>
    rw [List.getLast?_eq_none_iff.mp hL] at hfin
    cases hfin
  | some p2 =>
    have hmem := List.mem_of_getLast?_eq_some hL
    have h1 := List.mem_filter.mp hmem
    have hid2 : p2.property_id = p.property_id := by simpa using h1.2
    have hlab := hcons p2 h1.1 p hpin hid2
    simp [hlab]

lemma sqlite_store_get (st : SqliteState) (rec : EntityRec) (i : String)
    (hid : rec.entity_id = some i)
    (hcons : ∀ p ∈ (rec.statements.getD []).filterMap (fun s => s.property),
      ∀ p' ∈ (rec.statements.getD []).filterMap (fun s => s.property),
      p.property_id = p'.property_id → p.label = p'.label)
    (haclean : aliasesTruthy rec = false →
      st.aliases.filter (fun a => a.entity_id = i) = [])
    (hsclean : statementsTruthy rec = false →
      st.statements.filter (fun s => s.entity_id = i) = []) :
    sqliteGetEntityById (sqliteStoreEntity st rec) i
      = some ⟨i, rec.label.getD "", rec.description.getD "", rec.type.getD "",
          rec.aliases.getD [], (rec.statements.getD []).filterMap absStmtOut⟩ := by
  unfold sqliteGetEntityById
  rw [storeEntity_entities st rec i hid]
  have hfl : (st.entities.filter (fun e => e.id ≠ i)).find? (fun e => e.id = i) = none := by
    rw [List.find?_eq_none]
    intro e he
    have h2 : e.id ≠ i := by simpa using (List.mem_filter.mp he).2
    simpa using h2
  rw [find?_append_left_none hfl, List.find?_cons_of_pos _ (by simp)]
  simp only [Option.some.injEq, EntityOut.mk.injEq, true_and]
  refine ⟨?_, ?_⟩
  · rw [storeEntity_aliases st rec i hid]
    by_cases ha : aliasesTruthy rec = true
    · simp only [ha, if_true]
      rw [List.filter_append, filter_ne_then_eq, List.nil_append,
        filter_eq_of_all (fun a : AliasRow => a.entity_id) i _ (by
          intro a hmem
          obtain ⟨b, _, hb⟩ := List.mem_map.mp hmem
          rw [← hb])]
      exact aliasRow_roundtrip i _
    · have ha' : aliasesTruthy rec = false := by simpa using ha
      simp only [ha', Bool.false_eq_true, if_false]
      rw [haclean ha', aliasesTruthy_false_getD ha']
      rfl
  · rw [storeEntity_statements st rec i hid]
    by_cases hs : statementsTruthy rec = true
    · simp only [hs, if_true]
      rw [List.filter_append, filter_ne_then_eq, List.nil_append,
        filter_eq_of_all (fun s : StmtRow => s.entity_id) i _ (by
          intro r hmem
          obtain ⟨b, _, hb⟩ := List.mem_filterMap.mp hmem
          obtain ⟨p, _, hp2⟩ := Option.map_eq_some'.mp hb
          rw [← hp2])]
      rw [List.filterMap_filterMap]
      apply List.filterMap_congr
      intro s hsm
      cases hp : s.property with
      | none => simp [hp, absStmtOut]
      | some p =>
        have hlook := storeEntity_lookup_own_label st rec i hid hs hcons s hsm p hp
        simp only [hp, Option.map_some', Option.some_bind]
        rw [hlook]
        simp [absStmtOut, hp]
    · have hs' : statementsTruthy rec = false := by simpa using hs
      simp only [hs', Bool.false_eq_true, if_false]
      rw [hsclean hs', statementsTruthy_false_getD hs']
      rfl

/-! ## Claim C1 -/

/-- C1 counterexample: replacement is not total.  Storing "Q1" with one
alias and one statement, then storing "Q1" again with the aliases and
statements keys absent, leaves the FIRST record's alias list visible in
both backends (the relational delete-then-insert only runs when the new
list is present and non-empty; the document update merges dicts), instead
of the empty list the claim requires. -/
theorem c1_counterexample :
    ((sqliteGetEntityById
        (sqliteStoreEntity (sqliteStoreEntity SqliteState.empty
          ⟨some "Q1", some "A", none, none, some [⟨"x", "en"⟩],
           some [⟨some ⟨"P1", "L"⟩, "v", none⟩]⟩)
          ⟨some "Q1", some "B", none, none, none, none⟩) "Q1").map
        (fun e => e.aliases) = some [⟨"x", "en"⟩]) ∧
    ((tinyGetEntityById
        (tinyStoreEntity (tinyStoreEntity TinyState.empty
          ⟨some "Q1", some "A", none, none, some [⟨"x", "en"⟩],
           some [⟨some ⟨"P1", "L"⟩, "v", none⟩]⟩)
          ⟨some "Q1", some "B", none, none, none, none⟩) "Q1").map
        (fun d => d.aliases) = some (some [⟨"x", "en"⟩])) := by
  decide

/-- C1 amended: for well-formed records sharing a non-empty id whose
SECOND record carries present and non-empty alias and statement lists
(each statement with a property, property labels consistent within the
record), storing the first then the second record and reading the id back
yields exactly the second record's aliases and statements in both
backends — full replacement, no merge. -/
theorem c1_amended (r1 r2 : EntityRec) (i : String) (as2 : List AliasRec)
    (ss2 : List StmtRec)
    (h1 : r1.entity_id = some i) (h2 : r2.entity_id = some i) (hi : i ≠ "")
    (hA : r2.aliases = some as2) (hAne : as2 ≠ [])
    (hS : r2.statements = some ss2) (hSne : ss2 ≠ [])
    (hdiffA : r1.aliases ≠ r2.aliases) (hdiffS : r1.statements ≠ r2.statements)
    (hprop : ∀ s ∈ ss2, s.property.isSome = true)
    (hcons : ∀ p ∈ ss2.filterMap (fun s => s.property),
      ∀ p' ∈ ss2.filterMap (fun s => s.property),
      p.property_id = p'.property_id → p.label = p'.label) :
    (∃ e, sqliteGetEntityById
        (sqliteStoreEntity (sqliteStoreEntity SqliteState.empty r1) r2) i = some e ∧
      e.aliases = as2 ∧ e.statements = ss2.filterMap absStmtOut) ∧
    (∃ d, tinyGetEntityById
        (tinyStoreEntity (tinyStoreEntity TinyState.empty r1) r2) i = some d ∧
      d.aliases = some as2 ∧ d.statements = some ss2) := by
  have haT : aliasesTruthy r2 = true := by
    unfold aliasesTruthy
    rw [hA]
    cases as2 with
    | nil => exact absurd rfl hAne
    | cons a as => rfl
  have hsT : statementsTruthy r2 = true := by
    unfold statementsTruthy
    rw [hS]
    cases ss2 with
    | nil => exact absurd rfl hSne
    | cons s ss => rfl
  constructor
  · have hg := sqlite_store_get (sqliteStoreEntity SqliteState.empty r1) r2 i h2
      (by simpa [hS] using hcons)
      (fun hfalse => absurd haT (by simp [hfalse]))
      (fun hfalse => absurd hsT (by simp [hfalse]))
    refine ⟨_, hg, ?_, ?_⟩
    · simp [hA]
    · simp [hS]
  · have hstep1 : tinyStoreEntity TinyState.empty r1 = ⟨[r1]⟩ := by
      unfold tinyStoreEntity
      simp [h1, hi, TinyState.empty]
    have hstep2 : tinyStoreEntity ⟨[r1]⟩ r2 = ⟨[mergeDoc r1 r2]⟩ := by
      unfold tinyStoreEntity
      simp [h1, h2, hi]
    refine ⟨mergeDoc r1 r2, ?_, ?_, ?_⟩
    · rw [hstep1, hstep2]
      unfold tinyGetEntityById
      have hme : (mergeDoc r1 r2).entity_id = some i := by
        simp [mergeDoc, pickField, h2]
      simp [List.find?, hme]
    · simp [mergeDoc, pickField, hA]
    · simp [mergeDoc, pickField, hS]

/-- Witness for C1 amended at concrete records: "Q1" stored first with one
alias and one statement, then restored with a different alias list and a
different statement list. -/
theorem c1_amended_witness :
    (∃ e, sqliteGetEntityById
        (sqliteStoreEntity (sqliteStoreEntity SqliteState.empty
          ⟨some "Q1", some "A", none, none, some [⟨"x", "en"⟩],
           some [⟨some ⟨"P1", "L1"⟩, "v1", none⟩]⟩)
          ⟨some "Q1", some "B", none, none, some [⟨"y", "de"⟩],
           some [⟨some ⟨"P2", "L2"⟩, "v2", some "Q9"⟩]⟩) "Q1" = some e ∧
      e.aliases = [⟨"y", "de"⟩] ∧
      e.statements = [(⟨some ⟨"P2", "L2"⟩, "v2", some "Q9"⟩ : StmtRec)].filterMap absStmtOut) ∧
    (∃ d, tinyGetEntityById
        (tinyStoreEntity (tinyStoreEntity TinyState.empty
          ⟨some "Q1", some "A", none, none, some [⟨"x", "en"⟩],
           some [⟨some ⟨"P1", "L1"⟩, "v1", none⟩]⟩)
          ⟨some "Q1", some "B", none, none, some [⟨"y", "de"⟩],
           some [⟨some ⟨"P2", "L2"⟩, "v2", some "Q9"⟩]⟩) "Q1" = some d ∧
      d.aliases = some [⟨"y", "de"⟩] ∧
      d.statements = some [⟨some ⟨"P2", "L2"⟩, "v2", some "Q9"⟩]) :=
  c1_amended
    ⟨some "Q1", some "A", none, none, some [⟨"x", "en"⟩],
     some [⟨some ⟨"P1", "L1"⟩, "v1", none⟩]⟩
    ⟨some "Q1", some "B", none, none, some [⟨"y", "de"⟩],
     some [⟨some ⟨"P2", "L2"⟩, "v2", some "Q9"⟩]⟩
    "Q1" [⟨"y", "de"⟩] [⟨some ⟨"P2", "L2"⟩, "v2", some "Q9"⟩]
    rfl rfl (by decide) rfl (by decide) rfl (by decide) (by decide) (by decide)
    (by decide) (by decide)

/-! ## Claim C2 -/

/-- C2 counterexample: the relational round trip is broken by conflicting
property labels inside one record.  A record whose two statements use
property id "P1" with labels "a" and "b" reads back with label "b" on
BOTH statements (statements join against the shared properties table,
where last-seen label wins), so the returned statement multiset differs
from the stored one. -/
theorem c2_counterexample :
    ((sqliteGetEntityById (sqliteStoreEntity SqliteState.empty
        ⟨some "Q1", some "A", none, none, none,
         some [⟨some ⟨"P1", "a"⟩, "v", none⟩, ⟨some ⟨"P1", "b"⟩, "w", none⟩]⟩) "Q1").map
      (fun e => e.statements)
      = some [⟨"P1", "b", "v", none⟩, ⟨"P1", "b", "w", none⟩]) ∧
    ¬ List.Perm [(⟨"P1", "b", "v", none⟩ : StatementOut), ⟨"P1", "b", "w", none⟩]
      ([⟨some ⟨"P1", "a"⟩, "v", none⟩,
        (⟨some ⟨"P1", "b"⟩, "w", none⟩ : StmtRec)].filterMap absStmtOut) := by
  decide

/-- C2 amended: for a well-formed record (non-empty id, every statement
carrying a property) whose property labels are consistent per property id,
store-then-get on a fresh store returns a structurally equal entity in
both backends: same label, description and type, and the same aliases and
statements up to order (statements compared as property id, property
label, value, and truthy referenced entity id). -/
theorem c2_amended (rec : EntityRec) (i : String)
    (hid : rec.entity_id = some i) (hi : i ≠ "")
    (hprop : ∀ s ∈ rec.statements.getD [], s.property.isSome = true)
    (hcons : ∀ p ∈ (rec.statements.getD []).filterMap (fun s => s.property),
      ∀ p' ∈ (rec.statements.getD []).filterMap (fun s => s.property),
      p.property_id = p'.property_id → p.label = p'.label) :
    (∃ e, sqliteGetEntityById (sqliteStoreEntity SqliteState.empty rec) i = some e ∧
      e.label = rec.label.getD "" ∧ e.description = rec.description.getD "" ∧
      e.type = rec.type.getD "" ∧ e.aliases.Perm (rec.aliases.getD []) ∧
      e.statements.Perm ((rec.statements.getD []).filterMap absStmtOut)) ∧
    (∃ d, tinyGetEntityById (tinyStoreEntity TinyState.empty rec) i = some d ∧
      d.label.getD "" = rec.label.getD "" ∧
      d.description.getD "" = rec.description.getD "" ∧
      d.type.getD "" = rec.type.getD "" ∧
      (d.aliases.getD []).Perm (rec.aliases.getD []) ∧
      ((d.statements.getD []).filterMap absStmtOut).Perm
        ((rec.statements.getD []).filterMap absStmtOut)) := by
  constructor
  · have hg := sqlite_store_get SqliteState.empty rec i hid hcons
      (fun _ => rfl) (fun _ => rfl)
    exact ⟨_, hg, rfl, rfl, rfl, List.Perm.refl _, List.Perm.refl _⟩
  · have hstep : tinyStoreEntity TinyState.empty rec = ⟨[rec]⟩ := by
      unfold tinyStoreEntity
      simp [hid, hi, TinyState.empty]
    rw [hstep]
    refine ⟨rec, ?_, rfl, rfl, rfl, List.Perm.refl _, List.Perm.refl _⟩
    unfold tinyGetEntityById
    simp [List.find?, hid]

/-- Witness for C2 amended at a concrete record with two aliases and two
statements, one of them an entity reference. -/
theorem c2_amended_witness :
    (∃ e, sqliteGetEntityById (sqliteStoreEntity SqliteState.empty
        ⟨some "Q148", some "China", some "country in East Asia", some "country",
         some [⟨"PRC", "en"⟩, ⟨"Zhongguo", "en"⟩],
         some [⟨some ⟨"P36", "capital"⟩, "Beijing", some "Q956"⟩,
               ⟨some ⟨"P1082", "population"⟩, "1.4e9", none⟩]⟩) "Q148" = some e ∧
      e.label = "China" ∧ e.description = "country in East Asia" ∧
      e.type = "country" ∧
      e.aliases.Perm [⟨"PRC", "en"⟩, ⟨"Zhongguo", "en"⟩] ∧
      e.statements.Perm ([⟨some ⟨"P36", "capital"⟩, "Beijing", some "Q956"⟩,
        (⟨some ⟨"P1082", "population"⟩, "1.4e9", none⟩ : StmtRec)].filterMap absStmtOut)) ∧
    (∃ d, tinyGetEntityById (tinyStoreEntity TinyState.empty
        ⟨some "Q148", some "China", some "country in East Asia", some "country",
         some [⟨"PRC", "en"⟩, ⟨"Zhongguo", "en"⟩],
         some [⟨some ⟨"P36", "capital"⟩, "Beijing", some "Q956"⟩,
               ⟨some ⟨"P1082", "population"⟩, "1.4e9", none⟩]⟩) "Q148" = some d ∧
      d.label.getD "" = "China" ∧ d.description.getD "" = "country in East Asia" ∧
      d.type.getD "" = "country" ∧
      (d.aliases.getD []).Perm [⟨"PRC", "en"⟩, ⟨"Zhongguo", "en"⟩] ∧
      ((d.statements.getD []).filterMap absStmtOut).Perm
        ([⟨some ⟨"P36", "capital"⟩, "Beijing", some "Q956"⟩,
          (⟨some ⟨"P1082", "population"⟩, "1.4e9", none⟩ : StmtRec)].filterMap absStmtOut)) :=
  c2_amended
    ⟨some "Q148", some "China", some "country in East Asia", some "country",
     some [⟨"PRC", "en"⟩, ⟨"Zhongguo", "en"⟩],
     some [⟨some ⟨"P36", "capital"⟩, "Beijing", some "Q956"⟩,
           ⟨some ⟨"P1082", "population"⟩, "1.4e9", none⟩]⟩
    "Q148" rfl (by decide) (by decide) (by decide)

/-! ## Search machinery (claim C3) -/

/-- Case-insensitive row predicate of the search WHERE clause, for
queries free of LIKE wildcards. -/
def rowMatchesCI (q : String) (r : EntityRow × Option AliasRow) : Bool :=
  ciContains q r.1.label || ciContains q r.1.description ||
    (match r.2 with
     | some a => ciContains q a.value
     | none => false)

/-- The spec-level match predicate for the relational search: the query is
a case-insensitive substring of the label, the description, or some alias
value of the entity. -/
def sqlEntityMatches (al : List AliasRow) (q : String) (e : EntityRow) : Bool :=
  ciContains q e.label || ciContains q e.description ||
    (al.filter (fun a => a.entity_id = e.id)).any (fun a => ciContains q a.value)

/-- Projection of an entity row to a search result record. -/
def projEnt (e : EntityRow) : SqlSearchOut := ⟨e.id, e.label, e.description⟩

/-- The relational search result as the spec describes it: matching
entities in storage order, projected, capped at the limit. -/
def sqliteSearchSpec (st : SqliteState) (q : String) (limit : Nat) : List SqlSearchOut :=
  ((st.entities.filter (sqlEntityMatches st.aliases q)).map projEnt).take limit

/-- The document search result as the spec for the amended claim describes
it: documents whose label or description contains the query
(case-insensitively), in storage order, capped, projected — alias values
are not consulted. -/
def tinySearchSpec (ts : TinyState) (q : String) (limit : Nat) : List TinySearchOut :=
  ((ts.docs.filter (fun d =>
      tinyFieldMatches q d.label || tinyFieldMatches q d.description)).take limit).map
    (fun d => ⟨d.entity_id, d.label, d.description⟩)

lemma startsAt_nil (q : List Char) : startsAt q [] = q.isEmpty := by
  cases q <;> rfl

lemma tails_any_isEmpty : ∀ t : List Char, (t.tails).any (fun x => x.isEmpty) = true := by
  intro t
  induction t with
  | nil => rfl
  | cons c t ih => simp [List.tails, ih]

lemma likeMatch_append_pct (q : List Char) (hw : ∀ c ∈ q, c ≠ '%' ∧ c ≠ '_') :
    ∀ s, likeMatch (q ++ ['%']) s = startsAt (q.map lowerChar) (s.map lowerChar) := by
  induction q with
  | nil =>
    intro s
    show likeMatch ['%'] s = _
    simp [likeMatch, startsAt, tails_any_isEmpty s, List.isEmpty_iff]
  | cons a q ih =>
    intro s
    have ha := hw a (List.mem_cons_self a q)
    have hw2 : ∀ c ∈ q, c ≠ '%' ∧ c ≠ '_' := fun c hc => hw c (List.mem_cons_of_mem a hc)
    cases s with
    | nil => simp [likeMatch, List.cons_append, ha.1, startsAt]
    | cons c s2 =>
      simp [likeMatch, List.cons_append, ha.1, ha.2, startsAt, ih hw2 s2]

lemma any_tails_startsAt (qL : List Char) : ∀ s : List Char,
    (s.tails).any (fun t => startsAt qL (t.map lowerChar))
      = occursIn qL (s.map lowerChar) := by
  intro s
  induction s with
  | nil => simp [List.tails, occursIn, startsAt_nil]
  | cons c s2 ih => simp [List.tails, occursIn, ih]

lemma sqlLikeQ_eq_ciContains (q s : String)
    (hw : ∀ c ∈ q.toList, c ≠ '%' ∧ c ≠ '_') :
    sqlLikeQ q s = ciContains q s := by
  unfold sqlLikeQ ciContains
  rw [show likeMatch ('%' :: (q.toList ++ ['%'])) s.toList
      = (s.toList.tails).any (fun t => likeMatch (q.toList ++ ['%']) t) by
    simp [likeMatch]]
  have h2 := likeMatch_append_pct q.toList hw
  simp only [h2]
  exact any_tails_startsAt _ _

lemma mem_of_mem_dedupKeepFirst {α : Type} [DecidableEq α] :
    ∀ {l : List α} {a : α}, a ∈ dedupKeepFirst l → a ∈ l := by
  intro l
  induction l with
  | nil => intro a h; cases h
  | cons x xs ih =>
    intro a h
    rcases List.mem_cons.mp h with rfl | h2
    · exact List.mem_cons_self a xs
    · exact List.mem_cons_of_mem x (ih ((List.mem_filter.mp h2).1))

lemma dedup_filter_comm {α : Type} [DecidableEq α] (p : α → Bool) :
    ∀ l : List α, (dedupKeepFirst l).filter p = dedupKeepFirst (l.filter p) := by
  intro l
  induction l with
  | nil => rfl
  | cons x xs ih =>
    have hsw : ∀ m : List α,
        (m.filter (fun y => y ≠ x)).filter p = (m.filter p).filter (fun y => y ≠ x) := by
      intro m
      rw [List.filter_filter, List.filter_filter]
      apply List.filter_congr
      intro y _
      rw [Bool.and_comm]
    by_cases hx : p x = true
    · show (x :: (dedupKeepFirst xs).filter (fun y => y ≠ x)).filter p = _
      rw [List.filter_cons_of_pos hx, hsw, ih, List.filter_cons_of_pos hx]
      rfl
    · show (x :: (dedupKeepFirst xs).filter (fun y => y ≠ x)).filter p = _
      rw [List.filter_cons_of_neg (by simp [hx]), hsw, ih,
        List.filter_cons_of_neg (by simp [hx])]
      rw [List.filter_eq_self]
      intro y hy
      have hyy : y ∈ xs.filter p := mem_of_mem_dedupKeepFirst hy
      have hpy : p y = true := (List.mem_filter.mp hyy).2
      simp only [ne_eq, decide_eq_true_eq]
      intro hyx
      rw [hyx] at hpy
      exact hx hpy

lemma dedupKeepFirst_cons_eq {α : Type} [DecidableEq α] (x : α) (xs : List α) :
    dedupKeepFirst (x :: xs) = x :: dedupKeepFirst (xs.filter (fun y => y ≠ x)) := by
  show x :: (dedupKeepFirst xs).filter (fun y => y ≠ x) = _
  rw [dedup_filter_comm]

lemma dedup_all_eq_append {α : Type} [DecidableEq α] (x : α) (L rest : List α)
    (hne : L ≠ []) (hall : ∀ y ∈ L, y = x) (hrest : ∀ y ∈ rest, y ≠ x) :
    dedupKeepFirst (L ++ rest) = x :: dedupKeepFirst rest := by
  cases L with
  | nil => exact absurd rfl hne
  | cons z L2 =>
    have hz : z = x := hall z (List.mem_cons_self z L2)
    subst hz
    rw [List.cons_append, dedupKeepFirst_cons_eq, List.filter_append]
    have h1 : L2.filter (fun y => y ≠ z) = [] := by
      rw [List.filter_eq_nil_iff]
      intro a ha
      have h3 := hall a (List.mem_cons_of_mem z ha)
      simp [h3]
    have h2 : rest.filter (fun y => y ≠ z) = rest := by
      rw [List.filter_eq_self]
      intro a ha
      simp [hrest a ha]
    rw [h1, h2, List.nil_append]

lemma joinGroup_mem (al : List AliasRow) (e : EntityRow) :
    ∀ r ∈ joinGroup al e, r.1 = e ∧
      ∀ a, r.2 = some a → a ∈ al.filter (fun x => x.entity_id = e.id) := by
  intro r hr
  unfold joinGroup at hr
  cases hfil : al.filter (fun a => a.entity_id = e.id) with
  | nil =>
    rw [hfil] at hr
    simp only [List.mem_singleton] at hr
    subst hr
    exact ⟨rfl, fun a ha => by cases ha⟩
  | cons a1 as1 =>
    rw [hfil] at hr
    simp only [List.mem_map] at hr
    obtain ⟨a2, ha2, hr2⟩ := hr
    subst hr2
    refine ⟨rfl, fun a3 ha3 => ?_⟩
    have h4 : a2 = a3 := Option.some.inj ha3
    exact h4 ▸ ha2

lemma joinGroup_ne_nil (al : List AliasRow) (e : EntityRow) : joinGroup al e ≠ [] := by
  unfold joinGroup
  cases hfil : al.filter (fun a => a.entity_id = e.id) <;> simp

lemma group_filter_nil (q : String) (al : List AliasRow) (e : EntityRow)
    (hm : sqlEntityMatches al q e = false) :
    (joinGroup al e).filter (rowMatchesCI q) = [] := by
  rw [List.filter_eq_nil_iff]
  intro r hr
  obtain ⟨hfst, hsnd⟩ := joinGroup_mem al e r hr
  unfold sqlEntityMatches at hm
  simp only [Bool.or_eq_false_iff] at hm
  unfold rowMatchesCI
  rw [hfst]
  cases h2 : r.2 with
  | none => simp [hm.1.1, hm.1.2]
  | some a =>
    have ha := hsnd a h2
    have hv : ciContains q a.value = false := by
      by_contra hvv
      have hvv2 : ciContains q a.value = true := by simpa using hvv
      have : (al.filter (fun x => x.entity_id = e.id)).any
          (fun x => ciContains q x.value) = true :=
        List.any_eq_true.mpr ⟨a, ha, hvv2⟩
      rw [this] at hm
      exact absurd hm.2 (by simp)
    simp [hm.1.1, hm.1.2, hv]

lemma group_filter_nonempty (q : String) (al : List AliasRow) (e : EntityRow)
    (hm : sqlEntityMatches al q e = true) :
    (joinGroup al e).filter (rowMatchesCI q) ≠ [] := by
  unfold sqlEntityMatches at hm
  by_cases hl : (ciContains q e.label || ciContains q e.description) = true
  · obtain ⟨r0, hr0⟩ : ∃ r, r ∈ joinGroup al e := by
      cases hjg : joinGroup al e with
      | nil => exact absurd hjg (joinGroup_ne_nil al e)
      | cons r rs => exact ⟨r, List.mem_cons_self r rs⟩
    have hfst := (joinGroup_mem al e r0 hr0).1
    have hpred : rowMatchesCI q r0 = true := by
      unfold rowMatchesCI
      rw [hfst]
      rcases Bool.or_eq_true_iff.mp hl with h | h <;> simp [h]
    exact List.ne_nil_of_mem (List.mem_filter.mpr ⟨hr0, by simp [hpred]⟩)
  · have hl2 : ciContains q e.label = false ∧ ciContains q e.description = false := by
      simpa [Bool.or_eq_false_iff] using hl
    have hany : (al.filter (fun x => x.entity_id = e.id)).any
        (fun x => ciContains q x.value) = true := by
      rw [hl2.1, hl2.2] at hm
      simpa using hm
    obtain ⟨a, ha, hav⟩ := List.any_eq_true.mp hany
    have hmem : (e, some a) ∈ joinGroup al e := by
      unfold joinGroup
      cases hfil : al.filter (fun x => x.entity_id = e.id) with
      | nil => rw [hfil] at ha; cases ha
      | cons a1 as1 =>
        rw [hfil] at ha
        exact List.mem_map.mpr ⟨a, ha, rfl⟩
    have hpred : rowMatchesCI q (e, some a) = true := by
      simp [rowMatchesCI, hav]
    exact List.ne_nil_of_mem (List.mem_filter.mpr ⟨hmem, by simp [hpred]⟩)

lemma dedup_join (q : String) (al : List AliasRow) :
    ∀ es : List EntityRow, (es.map (fun e => e.id)).Nodup →
      dedupKeepFirst (((es.flatMap (joinGroup al)).filter (rowMatchesCI q)).map projRow)
        = (es.filter (sqlEntityMatches al q)).map projEnt := by
  intro es
  induction es with
  | nil => intro _; rfl
  | cons e es ih =>
    intro hnd
    obtain ⟨hnotin, hnd2⟩ := List.nodup_cons.mp hnd
    rw [List.flatMap_cons, List.filter_append, List.map_append]
    have hall : ∀ y ∈ ((joinGroup al e).filter (rowMatchesCI q)).map projRow,
        y = projEnt e := by
      intro y hy
      obtain ⟨r, hr, hpr⟩ := List.mem_map.mp hy
      have hfst := (joinGroup_mem al e r (List.mem_filter.mp hr).1).1
      rw [← hpr]
      unfold projRow projEnt
      rw [hfst]
    have hrest : ∀ y ∈ ((es.flatMap (joinGroup al)).filter (rowMatchesCI q)).map projRow,
        y ≠ projEnt e := by
      intro y hy
      obtain ⟨r, hr, hpr⟩ := List.mem_map.mp hy
      obtain ⟨e2, he2, hre⟩ := List.mem_flatMap.mp (List.mem_filter.mp hr).1
      have hfst := (joinGroup_mem al e2 r hre).1
      intro hc
      apply hnotin
      have hpe : projEnt e2 = projEnt e := by
        have h5 : projRow r = projEnt e := hpr.trans hc
        unfold projRow at h5
        rw [hfst] at h5
        exact h5
      have hid : e2.id = e.id := congrArg SqlSearchOut.id hpe
      exact List.mem_map.mpr ⟨e2, he2, hid⟩
    by_cases hm : sqlEntityMatches al q e = true
    · have hne : ((joinGroup al e).filter (rowMatchesCI q)).map projRow ≠ [] := by
        intro h0
        exact group_filter_nonempty q al e hm (List.map_eq_nil_iff.mp h0)
      rw [dedup_all_eq_append (projEnt e) _ _ hne hall hrest, ih hnd2,
        List.filter_cons_of_pos (by simp [hm]), List.map_cons]
    · have hm2 : sqlEntityMatches al q e = false := by simpa using hm
      rw [group_filter_nil q al e hm2]
      simp only [List.map_nil, List.nil_append]
      rw [ih hnd2, List.filter_cons_of_neg (by simp [hm2])]

/-! ## Claim C3 -/

/-- C3 counterexample: alias values are searched by only one backend.
With one stored entity whose label is "lbl", description "desc" and sole
alias value "foo", searching "foo" returns the entity from the relational
backend but the empty list from the document backend, which consults only
label and description — refuting the claimed match condition for every
backend. -/
theorem c3_counterexample :
    (sqliteSearch (sqliteStoreEntity SqliteState.empty
        ⟨some "Q9", some "lbl", some "desc", none, some [⟨"foo", "en"⟩], none⟩)
        "foo" 10
      = [⟨"Q9", "lbl", "desc"⟩]) ∧
    (tinySearch (tinyStoreEntity TinyState.empty
        ⟨some "Q9", some "lbl", some "desc", none, some [⟨"foo", "en"⟩], none⟩)
        "foo" 10
      = []) := by
  decide

/-- C3 amended: for a query free of LIKE wildcard characters and stores
with unique ids, both backends return {id, label, description} records
with no duplicate ids, capped at the limit; the relational backend returns
exactly the entities whose label, description, or some alias value
contains the query case-insensitively (in storage order, truncated), while
the document backend matches only against label and description — alias
values are not searched (and its match is a regular-expression search,
equal to substring search for metacharacter-free queries). -/
theorem c3_amended (st : SqliteState) (ts : TinyState) (q : String) (limit : Nat)
    (hw : ∀ c ∈ q.toList, c ≠ '%' ∧ c ≠ '_')
    (hnd : (st.entities.map (fun e => e.id)).Nodup)
    (htnd : (ts.docs.map (fun d => d.entity_id)).Nodup) :
    sqliteSearch st q limit = sqliteSearchSpec st q limit ∧
    (sqliteSearch st q limit).length ≤ limit ∧
    ((sqliteSearch st q limit).map (fun r => r.id)).Nodup ∧
    tinySearch ts q limit = tinySearchSpec ts q limit ∧
    (tinySearch ts q limit).length ≤ limit ∧
    ((tinySearch ts q limit).map (fun r => r.id)).Nodup := by
  have hfirst : sqliteSearch st q limit = sqliteSearchSpec st q limit := by
    unfold sqliteSearch sqliteSearchSpec
    have hrw : (leftJoinRows st).filter (rowMatches q)
        = (leftJoinRows st).filter (rowMatchesCI q) := by
      apply List.filter_congr
      intro r _
      unfold rowMatches rowMatchesCI
      rw [sqlLikeQ_eq_ciContains q r.1.label hw, sqlLikeQ_eq_ciContains q r.1.description hw]
      cases h2 : r.2 with
      | none => rfl
      | some a => simp [sqlLikeQ_eq_ciContains q a.value hw]
    rw [hrw]
    unfold leftJoinRows
    rw [dedup_join q st.aliases st.entities hnd]
  refine ⟨hfirst, ?_, ?_, rfl, ?_, ?_⟩
  · rw [hfirst]
    exact List.length_take_le _ _
  · rw [hfirst]
    unfold sqliteSearchSpec
    rw [List.map_take, List.map_map]
    have hsub1 : ((st.entities.filter (sqlEntityMatches st.aliases q)).map
          ((fun r : SqlSearchOut => r.id) ∘ projEnt)).Sublist
        (st.entities.map ((fun r : SqlSearchOut => r.id) ∘ projEnt)) :=
      (List.filter_sublist _).map _
    have hn2 : (st.entities.map ((fun r : SqlSearchOut => r.id) ∘ projEnt)).Nodup := by
      have : ((fun r : SqlSearchOut => r.id) ∘ projEnt) = fun e => e.id := rfl
      rw [this]
      exact hnd
    exact ((List.take_sublist _ _).trans hsub1).nodup hn2
  · unfold tinySearch
    rw [List.length_map]
    exact List.length_take_le _ _
  · unfold tinySearch
    rw [List.map_map]
    have hsub1 : (((ts.docs.filter (fun d =>
          tinyFieldMatches q d.label || tinyFieldMatches q d.description)).take limit).map
        (fun d => d.entity_id)).Sublist (ts.docs.map (fun d => d.entity_id)) := by
      apply List.Sublist.map
      exact (List.take_sublist _ _).trans (List.filter_sublist _)
    exact hsub1.nodup htnd

/-- Witness for C3 amended at a concrete input: the one-entity store of
the counterexample, query "foo", limit 10. -/
theorem c3_amended_witness :
    sqliteSearch (sqliteStoreEntity SqliteState.empty
        ⟨some "Q9", some "lbl", some "desc", none, some [⟨"foo", "en"⟩], none⟩)
        "foo" 10
      = sqliteSearchSpec (sqliteStoreEntity SqliteState.empty
        ⟨some "Q9", some "lbl", some "desc", none, some [⟨"foo", "en"⟩], none⟩)
        "foo" 10 ∧
    tinySearch (tinyStoreEntity TinyState.empty
        ⟨some "Q9", some "lbl", some "desc", none, some [⟨"foo", "en"⟩], none⟩)
        "foo" 10
      = tinySearchSpec (tinyStoreEntity TinyState.empty
        ⟨some "Q9", some "lbl", some "desc", none, some [⟨"foo", "en"⟩], none⟩)
        "foo" 10 :=
  have h := c3_amended
    (sqliteStoreEntity SqliteState.empty
      ⟨some "Q9", some "lbl", some "desc", none, some [⟨"foo", "en"⟩], none⟩)
    (tinyStoreEntity TinyState.empty
      ⟨some "Q9", some "lbl", some "desc", none, some [⟨"foo", "en"⟩], none⟩)
    "foo" 10 (by decide) (by decide) (by decide)
  ⟨h.1, h.2.2.2.1⟩

end WikiData
